import Mathlib

/-!
KServer: wire formats, transport reads and the client status parser.

A shallow embedding of

* `src/api_c/sessions.c`: `kclient_get_running_sessions` (the parser of the
  session-list reply) and `__append_session`, `kclient_get_session_perfs`
  (the parser of the perf reply) and `__append_timing_pt`,
  `kclient_is_valid_sess_id`;
* `src/core/socket_interface.cpp`: `read_data`, `RcvHandshake` and `SendCstr`
  of `TCPSocketInterface` and of `WebSocketInterface`,
  `TCPSocketInterface::RcvDataBuffer`;
* `src/core/kdevice.cpp`: `KDeviceAbstract::is_failed`;
* `src/core/kdevice.hpp`: `KDeviceAbstract::cast`;
* `Session::parse_input_buffer`, of which only the declaration is available
  in `src/core/kserver_session.hpp`.

C strings are lists of `Char` (one `Char` per byte), the terminating byte is
`NUL`.  Machine integers are `Int`/`Nat` with the wrap-around written out.
The data model is LP64: `int` and `uint32_t` have 32 bits, `long` and
`time_t` have 64 bits.
-/

namespace KServer

/-! ## C strings and libc helpers -/

/-- The byte that terminates a C string. -/
def NUL : Char := Char.ofNat 0

/-- The C string held by a char array: the bytes before the first `NUL`
(the whole array when it holds no `NUL`). -/
def cstr (buf : List Char) : List Char :=
  buf.takeWhile (fun c => c != NUL)

/-- Does `hay` begin with `needle`? (helper of `strstr`). -/
def startsWith : List Char → List Char → Bool
  | [], _ => true
  | _ :: _, [] => false
  | a :: as, b :: bs => a == b && startsWith as bs

/-- The test `strstr(hay, needle) != NULL` on C strings already cut at their
terminator: `needle` occurs somewhere in `hay`. -/
def strstr : List Char → List Char → Bool
  | [], needle => startsWith needle []
  | h :: t, needle => startsWith needle (h :: t) || strstr t needle

/-- The libc predicate `isspace` in the C locale. -/
def isspace (c : Char) : Bool :=
  c == ' ' || (9 ≤ c.toNat && c.toNat ≤ 13)

/-- The libc predicate `isdigit`. -/
def isdigit (c : Char) : Bool :=
  48 ≤ c.toNat && c.toNat ≤ 57

/-- Value of a decimal digit. -/
def digitVal (c : Char) : Nat := c.toNat - 48

def LONG_MAX : Int := 2 ^ 63 - 1
def LONG_MIN : Int := -(2 ^ 63)
def INT_MAX : Int := 2 ^ 31 - 1
def INT_MIN : Int := -(2 ^ 31)

/-- Value of a run of decimal digits, most significant first. -/
def digitsVal (ds : List Char) : Nat :=
  ds.foldl (fun acc c => 10 * acc + digitVal c) 0

/-- The call `strtol(s, NULL, 10)` on a C string: leading white space is
skipped, an optional sign is read, then the longest run of decimal digits;
the value saturates at `LONG_MIN` / `LONG_MAX`. -/
def strtol (s : List Char) : Int :=
  let s1 := s.dropWhile isspace
  let neg : Bool := s1.head? == some '-'
  let s2 := if s1.head? == some '-' || s1.head? == some '+' then s1.tail else s1
  let v : Int := (digitsVal (s2.takeWhile isdigit) : Nat)
  let r : Int := if neg then -v else v
  if r > LONG_MAX then LONG_MAX else if r < LONG_MIN then LONG_MIN else r

/-- The conversion `(int) x` of a `long`: reduction modulo `2^32` into the
signed 32-bit range. -/
def toInt32 (x : Int) : Int := (x + 2 ^ 31) % 2 ^ 32 - 2 ^ 31

/-! ## The session list (`src/api_c/sessions.c`) -/

/-- The connection types a session status can carry. -/
inductive ConnType
  | TCP
  | WEBSOCK
  | UNIX
  deriving DecidableEq, Repr

/-- The record `struct session_status`; the two char arrays are kept as the C
strings they hold. -/
structure session_status where
  sess_id : Int
  conn_type : ConnType
  clt_ip : List Char
  clt_port : Int
  req_num : Int
  error_num : Int
  uptime : Int
  permissions : List Char
  deriving DecidableEq, Repr

/-- Sizes of the fixed arrays declared in `sessions.h` (not part of the
sources at hand): the two char arrays of `struct session_status` and the
array of `struct running_sessions`. -/
structure Sizes where
  CLT_IP_LEN : Nat
  PERMS_LEN : Nat
  MAX_SESS_NUM : Nat

/-- Size of the local array `char tmp_buff[2048]`. -/
def TMP_BUFF_LEN : Nat := 2048

def SESS_FIELD_NONE : Nat := 0
def SESS_FIELD_ID : Nat := 1
def SESS_FIELD_CONN_TYPE : Nat := 2
def SESS_FIELD_CLIENT_IP : Nat := 3
def SESS_FIELD_CLIENT_PORT : Nat := 4
def SESS_FIELD_REQ_NUM : Nat := 5
def SESS_FIELD_ERR_NUM : Nat := 6
def SESS_FIELD_UPTIME : Nat := 7
def SESS_FIELD_PERMISSIONS : Nat := 8

/-- The local variables of the parsing loop of `kclient_get_running_sessions`
together with the list under construction (`sessions->sessions[0 .. sess_num)`). -/
structure ParseState where
  tmp_buff : List Char
  tmp_buff_cnt : Nat
  current_field : Nat
  tmp_session : session_status
  sessions : List session_status
  deriving DecidableEq, Repr

/-- What `kclient_get_running_sessions` hands back once the reply is in the
receive buffer. -/
inductive Outcome
  /-- The statement `return NULL`. -/
  | null
  /-- A store past the end of one of the fixed arrays. -/
  | undefined
  /-- The statement `return sessions`, with `sess_num` the length of the list. -/
  | sessions (l : List session_status)
  deriving DecidableEq, Repr

/-- Effect of one iteration of the loop: go on, or leave the function. -/
inductive Step
  | next (s : ParseState)
  | stop (o : Outcome)
  deriving DecidableEq, Repr

/-- The function `__append_session`: copy the status into slot `sess_num`
and increment `sess_num`. -/
def __append_session (sz : Sizes) (sessions : List session_status)
    (sess_status : session_status) : Option (List session_status) :=
  if sz.MAX_SESS_NUM ≤ sessions.length then none
  else some (sessions ++ [sess_status])

/-- The tail common to every case of the branch `buffer[i] == ':'`:
`tmp_buff[0] = 0; tmp_buff_cnt = 0;`. -/
def colon_done (s : ParseState) (buf : List Char) (t : session_status)
    (field : Nat) : Step :=
  .next { tmp_buff := buf.set 0 NUL, tmp_buff_cnt := 0, current_field := field,
          tmp_session := t, sessions := s.sessions }

/-- The statement `switch (current_field)` of the branch `buffer[i] == ':'`,
followed by the tail of the branch; `buf` is `tmp_buff` and `str` the C
string it holds once the terminator of the field is stored. -/
def switch_field (sz : Sizes) (s : ParseState) (buf str : List Char) : Step :=
  let t := s.tmp_session
  if s.current_field = SESS_FIELD_ID then
    colon_done s buf { t with sess_id := toInt32 (strtol str) } (s.current_field + 1)
  else if s.current_field = SESS_FIELD_CONN_TYPE then
    if str = ['T', 'C', 'P'] then
      colon_done s buf { t with conn_type := .TCP } (s.current_field + 1)
    else if str = ['W', 'E', 'B', 'S', 'O', 'C', 'K'] then
      colon_done s buf { t with conn_type := .WEBSOCK } (s.current_field + 1)
    else if str = ['U', 'N', 'I', 'X'] then
      colon_done s buf { t with conn_type := .UNIX } (s.current_field + 1)
    else .stop .null
  else if s.current_field = SESS_FIELD_CLIENT_IP then
    if sz.CLT_IP_LEN ≤ str.length then .stop .undefined
    else colon_done s buf { t with clt_ip := str } (s.current_field + 1)
  else if s.current_field = SESS_FIELD_CLIENT_PORT then
    colon_done s buf { t with clt_port := toInt32 (strtol str) } (s.current_field + 1)
  else if s.current_field = SESS_FIELD_REQ_NUM then
    colon_done s buf { t with req_num := toInt32 (strtol str) } (s.current_field + 1)
  else if s.current_field = SESS_FIELD_ERR_NUM then
    colon_done s buf { t with error_num := toInt32 (strtol str) } (s.current_field + 1)
  else if s.current_field = SESS_FIELD_UPTIME then
    colon_done s buf { t with uptime := strtol str } (s.current_field + 1)
  else colon_done s buf t s.current_field

/-- The branch `buffer[i] == ':'` of the loop: `tmp_buff[tmp_buff_cnt] = 0`,
then the switch on the current field. -/
def on_colon (sz : Sizes) (s : ParseState) : Step :=
  if TMP_BUFF_LEN ≤ s.tmp_buff_cnt then .stop .undefined
  else
    let buf := s.tmp_buff.set s.tmp_buff_cnt NUL
    switch_field sz s buf (cstr buf)

/-- The branch `buffer[i] == '\n'` of the loop.  The search for `EORS` runs on
`tmp_buff` as it stands, before the terminator of the current field is
stored. -/
def on_newline (sz : Sizes) (s : ParseState) : Step :=
  if strstr (cstr s.tmp_buff) ['E', 'O', 'R', 'S'] then .stop (.sessions s.sessions)
  else if TMP_BUFF_LEN ≤ s.tmp_buff_cnt then .stop .undefined
  else
    let buf := s.tmp_buff.set s.tmp_buff_cnt NUL
    let str := cstr buf
    if sz.PERMS_LEN ≤ str.length then .stop .undefined
    else
      let t := { s.tmp_session with permissions := str }
      match __append_session sz s.sessions t with
      | none => .stop .undefined
      | some l =>
        .next { tmp_buff := buf.set 0 NUL, tmp_buff_cnt := 0,
                current_field := SESS_FIELD_ID, tmp_session := t, sessions := l }

/-- The last branch of the loop: store the byte in `tmp_buff`. -/
def on_other (s : ParseState) (c : Char) : Step :=
  if TMP_BUFF_LEN ≤ s.tmp_buff_cnt then .stop .undefined
  else .next { s with tmp_buff := s.tmp_buff.set s.tmp_buff_cnt c,
                      tmp_buff_cnt := s.tmp_buff_cnt + 1 }

/-- One iteration of `for (i=0; i<bytes_read; i++)` on the byte `buffer[i]`. -/
def parse_step (sz : Sizes) (s : ParseState) (c : Char) : Step :=
  if c = ':' then on_colon sz s
  else if c = '\n' then on_newline sz s
  else on_other s c

/-- The loop `for (i=0; i<bytes_read; i++)` over the received bytes, followed
by `return sessions`. -/
def parse_loop (sz : Sizes) : ParseState → List Char → Outcome
  | s, [] => .sessions s.sessions
  | s, c :: cs =>
    match parse_step sz s c with
    | .next s1 => parse_loop sz s1 cs
    | .stop o => o

/-- The state on entry of the loop.  `tmp_buff` and `tmp_session` are
uninitialised locals: their content on entry is whatever `garbage` and
`tmp0` hold, except for `tmp_buff[0] = 0`. -/
def parse_init (garbage : List Char) (tmp0 : session_status) : ParseState :=
  { tmp_buff := garbage.set 0 NUL, tmp_buff_cnt := 0, current_field := SESS_FIELD_ID,
    tmp_session := tmp0, sessions := [] }

/-- What one call of `kclient_get_running_sessions` gets from its
collaborators (`kclient_send_string`, `kclient_rcv_esc_seq` and `malloc`,
none of them part of the sources at hand). -/
structure SessionsCall where
  /-- Value returned by `kclient_send_string(kcl, "1|4|\n")`. -/
  send_ret : Int
  /-- Value returned by `kclient_rcv_esc_seq(kcl, rcv_buffer, "EORS")`. -/
  rcv_ret : Int
  /-- Content of `rcv_buffer.buffer` after the reception. -/
  buffer : List Char
  /-- Whether `malloc` returns a non-null pointer. -/
  malloc_ok : Bool

/-- The call in which the request is sent, the bytes `text` are received and
counted, and the allocation succeeds. -/
def received (text : List Char) : SessionsCall :=
  { send_ret := 0, rcv_ret := text.length, buffer := text, malloc_ok := true }

/-- The function `__get_sessions_data`: the number of bytes received, or -1. -/
def __get_sessions_data (call : SessionsCall) : Int :=
  if call.send_ret < 0 then -1
  else
    let bytes_read := call.rcv_ret
    if bytes_read < 0 then -1 else bytes_read

/-- The function `kclient_get_running_sessions`: `NULL` when the data cannot
be obtained or the allocation fails, otherwise the loop over the
`bytes_read` bytes of the buffer. -/
def kclient_get_running_sessions (sz : Sizes) (garbage : List Char)
    (tmp0 : session_status) (call : SessionsCall) : Outcome :=
  let bytes_read := __get_sessions_data call
  if bytes_read < 0 then .null
  else if call.malloc_ok = false then .null
  else parse_loop sz (parse_init garbage tmp0) (call.buffer.take bytes_read.toNat)

/-! ### The text of the session-list reply -/

/-- The character of a decimal digit. -/
def digitChar (d : Nat) : Char := Char.ofNat (48 + d)

/-- Decimal digits of `n` in front of `acc`, most significant first; `fuel`
bounds the number of digits. -/
def decimalAux : Nat → Nat → List Char → List Char
  | 0, _, acc => acc
  | fuel + 1, n, acc =>
    if n < 10 then digitChar n :: acc
    else decimalAux fuel (n / 10) (digitChar (n % 10) :: acc)

/-- Decimal text of a natural number. -/
def decimalNat (n : Nat) : List Char := decimalAux (n + 1) n []

/-- Modelled from the spec: the sender of the session-list reply is not part
of the sources at hand; a numeric field of a record is written as decimal
text, with a leading minus sign when negative. -/
def decimal (i : Int) : List Char :=
  if i < 0 then '-' :: decimalNat i.natAbs else decimalNat i.natAbs

/-- Modelled from the spec: the sender of the session-list reply is not part
of the sources at hand; `conn_type` is written as one of `TCP`, `WEBSOCK`,
`UNIX`. -/
def conn_type_str : ConnType → List Char
  | .TCP => ['T', 'C', 'P']
  | .WEBSOCK => ['W', 'E', 'B', 'S', 'O', 'C', 'K']
  | .UNIX => ['U', 'N', 'I', 'X']

/-- Modelled from the spec: the sender of the session-list reply is not part
of the sources at hand; one record is the line
`id:conn_type:ip:port:req_num:err_num:uptime:permissions\n`. -/
def session_line (r : session_status) : List Char :=
  decimal r.sess_id ++ ':' :: conn_type_str r.conn_type ++ ':' :: r.clt_ip ++ ':' ::
    decimal r.clt_port ++ ':' :: decimal r.req_num ++ ':' :: decimal r.error_num ++ ':' ::
    decimal r.uptime ++ ':' :: r.permissions ++ ['\n']

/-- The terminator line `EORS\n`. -/
def EORS_line : List Char := ['E', 'O', 'R', 'S', '\n']

/-- Modelled from the spec: the sender of the session-list reply is not part
of the sources at hand; the reply is one line per session followed by the
line `EORS`. -/
def sessions_reply (rs : List session_status) : List Char :=
  (rs.map session_line).flatten ++ EORS_line

/-- A text field that the line format can carry: no field delimiter, no
newline, no NUL byte. -/
def plainField (f : List Char) : Prop :=
  ∀ c ∈ f, c ≠ ':' ∧ c ≠ '\n' ∧ c ≠ NUL

instance (f : List Char) : Decidable (plainField f) :=
  inferInstanceAs (Decidable (∀ c ∈ f, c ≠ ':' ∧ c ≠ '\n' ∧ c ≠ NUL))

/-- The letter `R` does not occur in `f` from its third character on. -/
def noLateR (f : List Char) : Prop := 'R' ∉ f.drop 2

instance (f : List Char) : Decidable (noLateR f) :=
  inferInstanceAs (Decidable ('R' ∉ f.drop 2))

/-- The value fits an `int`. -/
def fitsInt (i : Int) : Prop := INT_MIN ≤ i ∧ i ≤ INT_MAX

instance (i : Int) : Decidable (fitsInt i) :=
  inferInstanceAs (Decidable (INT_MIN ≤ i ∧ i ≤ INT_MAX))

/-- The value fits a `long`. -/
def fitsLong (i : Int) : Prop := LONG_MIN ≤ i ∧ i ≤ LONG_MAX

instance (i : Int) : Decidable (fitsLong i) :=
  inferInstanceAs (Decidable (LONG_MIN ≤ i ∧ i ≤ LONG_MAX))

/-- The records for which the line format is faithful: the numbers fit their
C types; `ip` and `permissions` hold no delimiter, newline or NUL byte, fit
their arrays (terminator included) and `tmp_buff`, and have no `R` after
their second character; `permissions` is not longer than `conn_type` or not
longer than `ip`. -/
def wellFormed (sz : Sizes) (r : session_status) : Prop :=
  fitsInt r.sess_id ∧ fitsInt r.clt_port ∧ fitsInt r.req_num ∧ fitsInt r.error_num ∧
  fitsLong r.uptime ∧
  plainField r.clt_ip ∧ r.clt_ip.length < sz.CLT_IP_LEN ∧ r.clt_ip.length < TMP_BUFF_LEN ∧
  noLateR r.clt_ip ∧
  plainField r.permissions ∧ r.permissions.length < sz.PERMS_LEN ∧ noLateR r.permissions ∧
  (r.permissions.length ≤ (conn_type_str r.conn_type).length ∨
    r.permissions.length ≤ r.clt_ip.length)

instance (sz : Sizes) (r : session_status) : Decidable (wellFormed sz r) :=
  inferInstanceAs (Decidable (
    fitsInt r.sess_id ∧ fitsInt r.clt_port ∧ fitsInt r.req_num ∧ fitsInt r.error_num ∧
    fitsLong r.uptime ∧
    plainField r.clt_ip ∧ r.clt_ip.length < sz.CLT_IP_LEN ∧ r.clt_ip.length < TMP_BUFF_LEN ∧
    noLateR r.clt_ip ∧
    plainField r.permissions ∧ r.permissions.length < sz.PERMS_LEN ∧ noLateR r.permissions ∧
    (r.permissions.length ≤ (conn_type_str r.conn_type).length ∨
      r.permissions.length ≤ r.clt_ip.length)))

/-- Content of `tmp_buff` once the bytes of the field `f`, stored from index
0, have been terminated and the branch has reset `tmp_buff[0]`. -/
def afterField (buf f : List Char) : List Char :=
  (f ++ NUL :: buf.drop (f.length + 1)).set 0 NUL

/-- The array `buf` holds a NUL byte at index `hi` and no letter `R` at the
indices from 2 up to `hi`. -/
def barrier (buf : List Char) (hi : Nat) : Prop :=
  buf[hi]? = some NUL ∧ ∀ i, 2 ≤ i → i < hi → buf[i]? ≠ some 'R'

/-! ## Transport (`src/core/socket_interface.cpp`) -/

/-- Result of one call `read(comm_fd, dst, count)`: the value returned and
the bytes stored at `dst`. -/
structure ReadResult where
  ret : Int
  bytes : List Char
  deriving DecidableEq, Repr

/-- A read that stored the bytes `d` and returned their number. -/
def ReadResult.data (d : List Char) : ReadResult := ⟨d.length, d⟩

/-- Content of a char array after `src` was stored at offset `off`. -/
def store (buf : List Char) (off : Nat) (src : List Char) : List Char :=
  buf.take off ++ src ++ buf.drop (off + src.length)

/-- The function `TCPSocketInterface::read_data`, for `KSERVER_READ_STR_LEN = LEN`
(the constant is defined in `kserver_defs.hpp`, not part of the sources at
hand).  Returns the returned int and the content of the `2*LEN` bytes of
`buff_str`. -/
def TCPSocketInterface.read_data (LEN : Nat) (remain_str : List Char)
    (rd : ReadResult) : Int × List Char :=
  let buff_str := List.replicate (2 * LEN) NUL
  let read_str := store (List.replicate LEN NUL) 0 rd.bytes
  let nb_bytes_rcvd := rd.ret
  if nb_bytes_rcvd < 0 then (-1, buff_str)
  else if nb_bytes_rcvd = LEN then (-1, buff_str)
  else if nb_bytes_rcvd = 0 then (1, buff_str)
  else
    let text := cstr remain_str ++ cstr read_str
    let ret : Int := text.length
    let buff_str :=
      if 2 * LEN = 0 then buff_str else store buff_str 0 (text.take (2 * LEN - 1) ++ [NUL])
    if ret < 0 then (-1, buff_str)
    else if ret ≥ 2 * LEN then (-1, buff_str)
    else (0, buff_str)

/-- How a call of `TCPSocketInterface::RcvDataBuffer` ends. -/
inductive RcvOutcome
  /-- The list of read results is used up and the loop still waits. -/
  | blocked
  /-- The statement `assert(bytes_read == n_bytes)` fails. -/
  | assert_failed
  /-- The function returns `ret`; `buff` is `recv_data_buff`, `bytes_read` the
  counter, `rest` the read results not consumed. -/
  | returned (ret : Int) (bytes_read : Nat) (buff : List Char) (rest : List ReadResult)
  deriving DecidableEq, Repr

/-- The loop `while (bytes_read < n_bytes)` of `TCPSocketInterface::RcvDataBuffer`
followed by the assertion and the return, for
`KSERVER_RECV_DATA_BUFF_LEN = BUFF_LEN`.  `bytes_read` is a `uint32_t`, the
result of `read` an `int`. -/
def RcvDataBuffer_loop (BUFF_LEN n_bytes : Nat) :
    Nat → List Char → List ReadResult → RcvOutcome
  | bytes_read, buff, reads =>
    if bytes_read < n_bytes then
      match reads with
      | [] => .blocked
      | rd :: rest =>
        let buff1 := store buff bytes_read rd.bytes
        let result := rd.ret
        if result < -1 then .returned (-1) bytes_read buff1 rest
        else if result = 0 then .returned (-1) bytes_read buff1 rest
        else
          let bytes_read1 := ((bytes_read + result) % 2 ^ 32).toNat
          if bytes_read1 > BUFF_LEN then .returned (-1) bytes_read1 buff1 rest
          else RcvDataBuffer_loop BUFF_LEN n_bytes bytes_read1 buff1 rest
    else if bytes_read = n_bytes then
      .returned (toInt32 bytes_read) bytes_read buff reads
    else .assert_failed

/-- The function `TCPSocketInterface::RcvDataBuffer`. -/
def TCPSocketInterface.RcvDataBuffer (BUFF_LEN n_bytes : Nat)
    (recv_data_buff : List Char) (reads : List ReadResult) : RcvOutcome :=
  RcvDataBuffer_loop BUFF_LEN n_bytes 0 recv_data_buff reads

/-- The function `htonl` on a little-endian host: the four bytes of a
`uint32_t` in reverse order. -/
def htonl (x : Nat) : Nat :=
  (x % 256) * 2 ^ 24 + (x / 2 ^ 8 % 256) * 2 ^ 16 + (x / 2 ^ 16 % 256) * 2 ^ 8
    + (x / 2 ^ 24 % 256)

/-- What a call of `RcvHandshake` did and returned. -/
structure Handshake where
  /-- The value handed to `Send<uint32_t>`. -/
  sent : Nat
  /-- The byte count handed to `RcvDataBuffer` (TCP), when it was called. -/
  asked : Option Nat
  /-- Number of calls of `read` (TCP) or `websock.receive` (WebSocket). -/
  receives : Nat
  /-- The pointer returned: `none` is `nullptr`, `some b` is `recv_data_buff`
  holding `b`. -/
  ptr : Option (List Char)
  deriving DecidableEq, Repr

/-- The function `TCPSocketInterface::RcvHandshake`.  `send_ret` is the value
returned by `Send<uint32_t>`; `none` when the call never returns (blocked
loop or failed assertion in `RcvDataBuffer`). -/
def TCPSocketInterface.RcvHandshake (BUFF_LEN buff_size : Nat) (send_ret : Int)
    (recv_data_buff : List Char) (reads : List ReadResult) : Option Handshake :=
  let sent := htonl buff_size
  if send_ret < 0 then
    some { sent := sent, asked := none, receives := 0, ptr := none }
  else
    let n_bytes := (4 * buff_size) % 2 ^ 32
    match TCPSocketInterface.RcvDataBuffer BUFF_LEN n_bytes recv_data_buff reads with
    | .returned ret _ buff rest =>
      let n_bytes_received : Nat := (ret % 2 ^ 32).toNat
      let receives := reads.length - rest.length
      if n_bytes_received < 0 then
        some { sent := sent, asked := some n_bytes, receives := receives, ptr := none }
      else
        some { sent := sent, asked := some n_bytes, receives := receives, ptr := some buff }
    | _ => none

/-- Results of the calls made on the member `websock` (class `WebSocket`, not
part of the sources at hand) during one call of the interface. -/
structure WebSockCalls where
  /-- Value returned by `websock.receive()`. -/
  receive : Int
  /-- Payload of the frame received. -/
  payload : List Char
  /-- Value returned by `websock.get_payload(...)`. -/
  get_payload : Int
  deriving DecidableEq, Repr

/-- The function `WebSocketInterface::RcvHandshake`.  `send_ret` is the value
returned by `Send<uint32_t>`; the product `sizeof(uint32_t)*buff_size` is a
64-bit `size_t`. -/
def WebSocketInterface.RcvHandshake (buff_size : Nat) (send_ret : Int)
    (ws : WebSockCalls) (recv_data_buff : List Char) : Handshake :=
  if send_ret < 0 then
    { sent := buff_size, asked := none, receives := 0, ptr := none }
  else
    let payload_size := ws.receive
    if payload_size < 0 then
      { sent := buff_size, asked := none, receives := 1, ptr := none }
    else if (payload_size % 2 ^ 32).toNat ≠ (4 * buff_size) % 2 ^ 64 then
      { sent := buff_size, asked := none, receives := 1, ptr := none }
    else if ws.get_payload < 0 then
      { sent := buff_size, asked := none, receives := 1, ptr := none }
    else
      { sent := buff_size, asked := none, receives := 1,
        ptr := some (store recv_data_buff 0 ws.payload) }

/-! ## The command parser (`Session::parse_input_buffer`) -/

/-- One parsed request: device id, operation id, raw argument tokens. -/
structure Command where
  device : Nat
  operation : Nat
  args : List (List Char)
  deriving DecidableEq, Repr

/-- Tokens of a line separated by the delimiter `d`. -/
def splitOn (d : Char) : List Char → List (List Char)
  | [] => [[]]
  | c :: cs =>
    if c = d then [] :: splitOn d cs
    else
      match splitOn d cs with
      | [] => [[c]]
      | tok :: toks => (c :: tok) :: toks

/-- Modelled from the spec: `Session::parse_input_buffer` is only declared in
the sources at hand; an id token is a non-empty run of decimal digits
(the spec gives no width for the ids, none is imposed here). -/
def parse_id (tok : List Char) : Option Nat :=
  if tok ≠ [] ∧ tok.all isdigit then some (digitsVal tok) else none

/-- Modelled from the spec: `Session::parse_input_buffer` is only declared in
the sources at hand; a terminated line, its marker `#` removed, is split on
`|`, the first two tokens are the decimal device and operation ids, the
remaining tokens are the arguments; a malformed id fails the command. -/
def parse_command (line : List Char) : Option Command :=
  match splitOn '|' line with
  | dev :: op :: args =>
    match parse_id dev, parse_id op with
    | some d, some o => some { device := d, operation := o, args := args }
    | _, _ => none
  | _ => none

/-- State of the scan of `buff_str`: the bytes of the current line, the bytes
retained so far, the commands extracted so far. -/
structure ScanState where
  line : List Char
  remain : List Char
  cmds : List Command
  deriving DecidableEq, Repr

/-- Modelled from the spec: `Session::parse_input_buffer` is only declared in
the sources at hand; the scan looks for newlines, the bytes preceding a
newline form a command when they end with the marker `#` and are retained
as remainder otherwise. -/
def scan_step (s : ScanState) (c : Char) : ScanState :=
  if c = '\n' then
    if s.line.getLast? = some '#' then
      { line := [], remain := s.remain,
        cmds := s.cmds ++ (parse_command s.line.dropLast).toList }
    else { line := [], remain := s.remain ++ s.line, cmds := s.cmds }
  else { s with line := s.line ++ [c] }

/-- Modelled from the spec: `Session::parse_input_buffer` is only declared in
the sources at hand; it splits the C string in `buff_str` into requests
`DEVICE|OPERATION|p1|...|pn#\n`, returns the commands in arrival order and
leaves in `remain_str` the retained bytes followed by the bytes after the
last newline. -/
def parse_input_buffer (buff_str : List Char) : List Command × List Char :=
  let s := (cstr buff_str).foldl scan_step { line := [], remain := [], cmds := [] }
  (s.cmds, s.remain ++ s.line)

/-- Modelled from the spec: the wire record
`<device_id>|<operation_id>|<arg1>|...|<argN>#\n`; a command stream is the
concatenation of records, `bodies` being the records without their
terminator marker and newline. -/
def command_stream (bodies : List (List Char)) : List Char :=
  (bodies.map (fun b => b ++ ['#', '\n'])).flatten

/-- Modelled from the spec: `Session::Run` is only declared in the sources at
hand; while the session is running each read goes through `read_data` and
`parse_input_buffer`, and a non-zero result of `read_data` ends the session.
Returns the commands extracted, in order. -/
def session_commands (LEN : Nat) : List Char → List ReadResult → List Command
  | _, [] => []
  | remain_str, rd :: rest =>
    let r := TCPSocketInterface.read_data LEN remain_str rd
    if r.1 = 0 then
      let p := parse_input_buffer r.2
      p.1 ++ session_commands LEN p.2 rest
    else []

/-! ## Session perfs (`src/api_c/sessions.c`) -/

/-- The record `struct timing_point`; `F` stands for the type `float`, which is
left uninterpreted. -/
structure timing_point (F : Type) where
  name : List Char
  mean_duration : F
  min_duration : Int
  max_duration : Int
  deriving DecidableEq, Repr

/-- Sizes of the fixed arrays declared in `sessions.h` (not part of the
sources at hand): the char array `name` of `struct timing_point` and the
array `points` of `struct session_perfs`. -/
structure PerfSizes where
  NAME_LEN : Nat
  MAX_POINTS : Nat

def SESS_PERFS_TIMING_PT_NAME : Nat := 0
def SESS_PERFS_MEAN : Nat := 1
def SESS_PERFS_MIN : Nat := 2
def SESS_PERFS_MAX : Nat := 3

/-- The local variables of the parsing loop of `kclient_get_session_perfs`
together with the points stored so far (`perfs->points[0 .. timing_points_num)`). -/
structure PerfState (F : Type) where
  tmp_buff : List Char
  tmp_buff_cnt : Nat
  current_field : Nat
  tmp_timing_pt : timing_point F
  points : List (timing_point F)
  deriving DecidableEq, Repr

/-- What `kclient_get_session_perfs` hands back. -/
inductive PerfOutcome (F : Type)
  /-- The statement `return NULL`. -/
  | null
  /-- A store past the end of one of the fixed arrays. -/
  | undefined
  /-- The statement `return perfs`, with `timing_points_num` the length of the
  list. -/
  | perfs (sess_id : Int) (points : List (timing_point F))
  deriving DecidableEq, Repr

/-- Effect of one iteration of the loop: go on, `break`, or a store past the
end of an array. -/
inductive PerfStep (F : Type)
  | next (s : PerfState F)
  | brk
  | undefined
  deriving DecidableEq, Repr

/-- The function `__append_timing_pt`: copy the timing point into slot
`timing_points_num` and increment `timing_points_num`. -/
def __append_timing_pt {F : Type} (psz : PerfSizes) (points : List (timing_point F))
    (time_pt : timing_point F) : Option (List (timing_point F)) :=
  if psz.MAX_POINTS ≤ points.length then none
  else some (points ++ [time_pt])

/-- The tail common to every case of the branch `buffer[i] == ':'`:
`tmp_buff[0] = 0; tmp_buff_cnt = 0;`. -/
def perf_colon_done {F : Type} (s : PerfState F) (buf : List Char) (t : timing_point F)
    (field : Nat) : PerfStep F :=
  .next { tmp_buff := buf.set 0 NUL, tmp_buff_cnt := 0, current_field := field,
          tmp_timing_pt := t, points := s.points }

/-- The statement `switch (current_field)` of the branch `buffer[i] == ':'` of
`kclient_get_session_perfs`, followed by the tail of the branch; `strtof`
stands for `strtof(., NULL)`. -/
def perf_switch_field {F : Type} (psz : PerfSizes) (strtof : List Char → F)
    (s : PerfState F) (buf str : List Char) : PerfStep F :=
  let t := s.tmp_timing_pt
  if s.current_field = SESS_PERFS_TIMING_PT_NAME then
    if psz.NAME_LEN ≤ str.length then .undefined
    else perf_colon_done s buf { t with name := str } (s.current_field + 1)
  else if s.current_field = SESS_PERFS_MEAN then
    perf_colon_done s buf { t with mean_duration := strtof str } (s.current_field + 1)
  else if s.current_field = SESS_PERFS_MIN then
    perf_colon_done s buf { t with min_duration := toInt32 (strtol str) } (s.current_field + 1)
  else perf_colon_done s buf t s.current_field

/-- The branch `buffer[i] == ':'` of the loop of `kclient_get_session_perfs`. -/
def perf_on_colon {F : Type} (psz : PerfSizes) (strtof : List Char → F)
    (s : PerfState F) : PerfStep F :=
  if TMP_BUFF_LEN ≤ s.tmp_buff_cnt then .undefined
  else
    let buf := s.tmp_buff.set s.tmp_buff_cnt NUL
    perf_switch_field psz strtof s buf (cstr buf)

/-- The branch `buffer[i] == '\n'` of the loop of `kclient_get_session_perfs`.
The search for `EOSP` runs on `tmp_buff` as it stands, before the terminator
of the current field is stored. -/
def perf_on_newline {F : Type} (psz : PerfSizes) (s : PerfState F) : PerfStep F :=
  if strstr (cstr s.tmp_buff) ['E', 'O', 'S', 'P'] then .brk
  else if TMP_BUFF_LEN ≤ s.tmp_buff_cnt then .undefined
  else
    let buf := s.tmp_buff.set s.tmp_buff_cnt NUL
    let t := { s.tmp_timing_pt with max_duration := toInt32 (strtol (cstr buf)) }
    match __append_timing_pt psz s.points t with
    | none => .undefined
    | some l =>
      .next { tmp_buff := buf.set 0 NUL, tmp_buff_cnt := 0,
              current_field := SESS_PERFS_TIMING_PT_NAME, tmp_timing_pt := t, points := l }

/-- The last branch of the loop: store the byte in `tmp_buff`. -/
def perf_on_other {F : Type} (s : PerfState F) (c : Char) : PerfStep F :=
  if TMP_BUFF_LEN ≤ s.tmp_buff_cnt then .undefined
  else .next { s with tmp_buff := s.tmp_buff.set s.tmp_buff_cnt c,
                      tmp_buff_cnt := s.tmp_buff_cnt + 1 }

/-- One iteration of `for (i=0; i<bytes_read; i++)` on the byte `buffer[i]`. -/
def perf_step {F : Type} (psz : PerfSizes) (strtof : List Char → F) (s : PerfState F)
    (c : Char) : PerfStep F :=
  if c = ':' then perf_on_colon psz strtof s
  else if c = '\n' then perf_on_newline psz s
  else perf_on_other s c

/-- The loop `for (i=0; i<bytes_read; i++)` of `kclient_get_session_perfs`,
followed by `return perfs`. -/
def perf_loop {F : Type} (psz : PerfSizes) (strtof : List Char → F) (sid : Int) :
    PerfState F → List Char → PerfOutcome F
  | s, [] => .perfs sid s.points
  | s, c :: cs =>
    match perf_step psz strtof s c with
    | .next s1 => perf_loop psz strtof sid s1 cs
    | .brk => .perfs sid s.points
    | .undefined => .undefined

/-- The state on entry of the loop of `kclient_get_session_perfs`; `garbage`
and `tmp0` are the content of the uninitialised locals `tmp_buff` and
`tmp_timing_pt`. -/
def perf_init {F : Type} (garbage : List Char) (tmp0 : timing_point F) : PerfState F :=
  { tmp_buff := garbage.set 0 NUL, tmp_buff_cnt := 0,
    current_field := SESS_PERFS_TIMING_PT_NAME, tmp_timing_pt := tmp0, points := [] }

/-- The function `__get_session_perfs_data`: the request `1|6|sid|\n` is
sent, the reply is received up to `EOSP`; the number of bytes received,
or -1.  `call` holds the results of `kclient_send_string` and
`kclient_rcv_esc_seq`. -/
def __get_session_perfs_data (call : SessionsCall) : Int :=
  if call.send_ret < 0 then -1
  else
    let bytes_read := call.rcv_ret
    if bytes_read < 0 then -1 else bytes_read

/-- The function `kclient_get_session_perfs`: `NULL` when the data cannot be
obtained or the allocation fails, otherwise `sess_id = sid` and the loop
over the `bytes_read` bytes of the buffer. -/
def kclient_get_session_perfs {F : Type} (psz : PerfSizes) (strtof : List Char → F)
    (garbage : List Char) (tmp0 : timing_point F) (sid : Int) (call : SessionsCall) :
    PerfOutcome F :=
  let bytes_read := __get_session_perfs_data call
  if bytes_read < 0 then .null
  else if call.malloc_ok = false then .null
  else perf_loop psz strtof sid (perf_init garbage tmp0) (call.buffer.take bytes_read.toNat)

/-- One line of the perf reply: the name, the text of the mean, the minimum
and the maximum. -/
structure perf_line where
  name : List Char
  mean : List Char
  min : Int
  max : Int
  deriving DecidableEq, Repr

/-- Modelled from the spec: the sender of the perf reply is not part of the
sources at hand; one timing point is the line `name:mean:min:max\n`, the
integers in decimal. -/
def perf_line_text (p : perf_line) : List Char :=
  p.name ++ ':' :: p.mean ++ ':' :: decimal p.min ++ ':' :: decimal p.max ++ ['\n']

/-- The terminator line `EOSP\n`. -/
def EOSP_line : List Char := ['E', 'O', 'S', 'P', '\n']

/-- Modelled from the spec: the sender of the perf reply is not part of the
sources at hand; the reply is one line per timing point followed by the line
`EOSP`. -/
def perfs_reply (ps : List perf_line) : List Char :=
  (ps.map perf_line_text).flatten ++ EOSP_line

/-- The timing point that a line of the reply stands for. -/
def perf_line.point {F : Type} (strtof : List Char → F) (p : perf_line) : timing_point F :=
  { name := p.name, mean_duration := strtof p.mean, min_duration := p.min,
    max_duration := p.max }

/-- The text `EOSP` does not occur in `f`. -/
def noEOSP (f : List Char) : Prop := strstr f ['E', 'O', 'S', 'P'] = false

instance (f : List Char) : Decidable (noEOSP f) :=
  inferInstanceAs (Decidable (strstr f ['E', 'O', 'S', 'P'] = false))

/-- The lines for which the perf format is faithful: `min` and `max` fit an
`int`; `name` and the text of the mean hold no delimiter, newline or NUL byte,
fit `tmp_buff` (`name` also its array, terminator included) and do not contain
the text `EOSP`; the text of `max` is not longer than one of the three fields
before it. -/
def perfWellFormed (psz : PerfSizes) (p : perf_line) : Prop :=
  fitsInt p.min ∧ fitsInt p.max ∧
  plainField p.name ∧ p.name.length < psz.NAME_LEN ∧ p.name.length < TMP_BUFF_LEN ∧
  noEOSP p.name ∧
  plainField p.mean ∧ p.mean.length < TMP_BUFF_LEN ∧ noEOSP p.mean ∧
  ((decimal p.max).length ≤ p.name.length ∨ (decimal p.max).length ≤ p.mean.length ∨
    (decimal p.max).length ≤ (decimal p.min).length)

instance (psz : PerfSizes) (p : perf_line) : Decidable (perfWellFormed psz p) :=
  inferInstanceAs (Decidable (
    fitsInt p.min ∧ fitsInt p.max ∧
    plainField p.name ∧ p.name.length < psz.NAME_LEN ∧ p.name.length < TMP_BUFF_LEN ∧
    noEOSP p.name ∧
    plainField p.mean ∧ p.mean.length < TMP_BUFF_LEN ∧ noEOSP p.mean ∧
    ((decimal p.max).length ≤ p.name.length ∨ (decimal p.max).length ≤ p.mean.length ∨
      (decimal p.max).length ≤ (decimal p.min).length)))

/-- The array `buf` holds a NUL byte at index `hi`, and read as a C string
from any index up to `hi` it does not contain the text `EOSP`. -/
def perfBarrier (buf : List Char) (hi : Nat) : Prop :=
  buf[hi]? = some NUL ∧ ∀ L, L ≤ hi → strstr (cstr (buf.drop L)) ['E', 'O', 'S', 'P'] = false

/-! ## The session list once parsed (`src/api_c/sessions.c`) -/

/-- The record `struct running_sessions`: the counter `sess_num` and the array
`sessions`. -/
structure running_sessions where
  sess_num : Int
  sessions : List session_status
  deriving DecidableEq, Repr

/-- The loop `for (i=0; i<sessions->sess_num; i++)` of
`kclient_is_valid_sess_id` over the entries it visits, followed by
`return 0`. -/
def is_valid_loop : List session_status → Int → Int
  | [], _ => 0
  | s :: rest, sid => if s.sess_id = sid then 1 else is_valid_loop rest sid

/-- The function `kclient_is_valid_sess_id`: the value returned, and the
structure pointed to by `sessions` after the call. -/
def kclient_is_valid_sess_id (sessions : running_sessions) (sid : Int) :
    Int × running_sessions :=
  (is_valid_loop (sessions.sessions.take sessions.sess_num.toNat) sid, sessions)

/-! ## Sending strings and WebSocket reads (`src/core/socket_interface.cpp`) -/

/-- The function `TCPSocketInterface::SendCstr`: `string` is the char array
pointed to, `write_ret` the value returned by `write`.  Returns the returned
int and the bytes handed to `write`. -/
def TCPSocketInterface.SendCstr (string : List Char) (write_ret : Int) : Int × List Char :=
  let bytes_send : Int := toInt32 ((cstr string).length + 1)
  let offered := string.take bytes_send.toNat
  let err := write_ret
  if err < 0 then (-1, offered)
  else (bytes_send, offered)

/-- The function `WebSocketInterface::SendCstr`: `send_ret` is the value
returned by `websock.send`.  Returns the returned int and the text handed to
`websock.send`. -/
def WebSocketInterface.SendCstr (string : List Char) (send_ret : Int) : Int × List Char :=
  let text := cstr string
  let err := send_ret
  if err < 0 then (-1, text)
  else (toInt32 ((cstr string).length + 1), text)

/-- The function `WebSocketInterface::read_data`, for
`KSERVER_READ_STR_LEN = LEN`; `ws` holds the results of `websock.receive()`
and `websock.get_payload(buff_str, 2*LEN)`, `is_closed` that of
`websock.is_closed()`.  Returns the returned int and the content of
`buff_str`. -/
def WebSocketInterface.read_data (LEN : Nat) (remain_str : List Char) (ws : WebSockCalls)
    (is_closed : Bool) : Int × List Char :=
  let _unused := remain_str
  let buff_str := List.replicate (2 * LEN) NUL
  if ws.receive < 0 then
    if is_closed then (1, buff_str) else (-1, buff_str)
  else if ws.get_payload < 0 then (-1, buff_str)
  else (0, store buff_str 0 ws.payload)

/-! ## Devices (`src/core/kdevice.cpp`) -/

/-- The enumeration `device_t` and the rows of `DEVICES_TABLE`
(`dev_definitions.hpp` and `devices_table.hpp`, not part of the sources at
hand): the tags `NO_DEVICE`, `KSERVER`, `device_num` and the tag `num` of
every row of the table. -/
structure DeviceTable where
  NO_DEVICE : Nat
  KSERVER : Nat
  device_num : Nat
  devices : List Nat

/-- The function `KDeviceAbstract::is_failed` on an object of tag `kind`;
`concrete k` is the result of `KDevice<name, k>::is_failed()` on that
object. -/
def KDeviceAbstract.is_failed (tb : DeviceTable) (concrete : Nat → Bool) (kind : Nat) :
    Bool :=
  if kind = tb.NO_DEVICE then false
  else if kind = tb.KSERVER then concrete tb.KSERVER
  else if kind ∈ tb.devices then concrete kind
  else if kind = tb.device_num then false
  else false

/-- A device class `Dev` as the template `cast` sees it: which class it is,
and its enumerator `Dev::__kind`. -/
structure DevClass where
  name : Nat
  __kind : Nat
  deriving DecidableEq, Repr

/-- An object of class `KDeviceAbstract` (`src/core/kdevice.hpp`): the address
`this` and the member `kind`. -/
structure KDeviceAbstract where
  addr : Nat
  kind : Nat
  deriving DecidableEq, Repr

/-- A non-null pointer of static type `KDevice<Dev, dev_kind>*`: the two
template arguments and the address pointed to. -/
structure KDevicePtr where
  Dev : DevClass
  dev_kind : Nat
  addr : Nat
  deriving DecidableEq, Repr

/-- The member template `KDeviceAbstract::cast<Dev, dev_kind>()` called on
`obj`: the pointer returned (`none` is `NULL`) and the object after the call.
`KDevice<Dev, dev_kind>` derives from `KDeviceAbstract` alone, so the
`static_cast` keeps the address. -/
def KDeviceAbstract.cast (Dev : DevClass) (dev_kind : Nat) (obj : KDeviceAbstract) :
    Option KDevicePtr × KDeviceAbstract :=
  if Dev.__kind ≠ obj.kind then (none, obj)
  else (some { Dev := Dev, dev_kind := dev_kind, addr := obj.addr }, obj)

/-! ## Properties of `read_data` -/

/-- A text without NUL byte followed by a NUL byte is the C string of the
array. -/
theorem cstr_append_nul (d rest : List Char) (h : NUL ∉ d) :
    cstr (d ++ NUL :: rest) = d := by
  induction d with
  | nil => simp [cstr, List.takeWhile]
  | cons a t ih =>
    have ha : a ≠ NUL := fun e => h (by simp [e])
    have ht : NUL ∉ t := fun e => h (by simp [e])
    have ha2 : (a != NUL) = true := by simpa using ha
    have := ih ht
    simp only [cstr] at this ⊢
    rw [List.cons_append, List.takeWhile_cons, ha2, this]
    rfl

/-- An array without NUL byte is read whole. -/
theorem cstr_of_no_nul (d : List Char) (h : NUL ∉ d) : cstr d = d := by
  induction d with
  | nil => simp [cstr]
  | cons a t ih =>
    have ha : a ≠ NUL := fun e => h (by simp [e])
    have ht : NUL ∉ t := fun e => h (by simp [e])
    have ha2 : (a != NUL) = true := by simpa using ha
    have := ih ht
    simp only [cstr] at this ⊢
    rw [List.takeWhile_cons, ha2, this]
    rfl

theorem cstr_length_le (b : List Char) : (cstr b).length ≤ b.length := by
  unfold cstr
  exact (List.takeWhile_sublist _).length_le

/-- After a read of fewer than `LEN` bytes without NUL byte into the zeroed
`read_str`, the C string in `read_str` is the bytes received. -/
theorem read_str_cstr (LEN : Nat) (d : List Char) (hd : d.length < LEN) (h : NUL ∉ d) :
    cstr (store (List.replicate LEN NUL) 0 d) = d := by
  unfold store
  simp only [List.take_zero, List.nil_append, Nat.zero_add, List.drop_replicate]
  obtain ⟨k, hk⟩ : ∃ k, LEN - d.length = k + 1 := ⟨LEN - d.length - 1, by omega⟩
  rw [hk, List.replicate_succ]
  exact cstr_append_nul d _ h

/-- The value returned by `read_data`, guard by guard. -/
theorem read_data_ret (LEN : Nat) (remain_str : List Char) (rd : ReadResult) :
    (TCPSocketInterface.read_data LEN remain_str rd).1 =
      if rd.ret < 0 then -1
      else if rd.ret = LEN then -1
      else if rd.ret = 0 then 1
      else if ((cstr remain_str ++ cstr (store (List.replicate LEN NUL) 0 rd.bytes)).length : Int)
          ≥ 2 * LEN then -1 else 0 := by
  unfold TCPSocketInterface.read_data
  simp only
  split_ifs <;> first | rfl | omega

/-- C5: `TCPSocketInterface::read_data` tells peer close from I/O error: it
returns 1 exactly when the underlying read returned 0 bytes, it returns -1
whenever the read returned a negative value, and it returns 0 only when the
read returned a positive number of bytes (`KSERVER_READ_STR_LEN` being a
positive array size). -/
theorem read_data_close_vs_error (LEN : Nat) (hLEN : 0 < LEN) (remain_str : List Char)
    (rd : ReadResult) :
    ((TCPSocketInterface.read_data LEN remain_str rd).1 = 1 ↔ rd.ret = 0) ∧
    (rd.ret < 0 → (TCPSocketInterface.read_data LEN remain_str rd).1 = -1) ∧
    ((TCPSocketInterface.read_data LEN remain_str rd).1 = 0 → 0 < rd.ret) := by
  rw [read_data_ret]
  refine ⟨?_, ?_, ?_⟩
  · split_ifs <;> constructor <;> intro h <;> first | omega | contradiction
  · intro h; simp [h]
  · split_ifs <;> intro h <;> first | omega | contradiction

/-- With a received sequence free of NUL bytes and within the size guards,
`read_data` returns 0 and `buff_str` is the remainder, the bytes received,
then NUL bytes. -/
theorem read_data_no_nul (LEN : Nat) (remain_str d : List Char)
    (hd0 : 0 < d.length) (hd : d.length < LEN) (hnul : NUL ∉ d)
    (hlen : (cstr remain_str).length + d.length < 2 * LEN) :
    TCPSocketInterface.read_data LEN remain_str (ReadResult.data d) =
      (0, cstr remain_str ++ d ++
            List.replicate (2 * LEN - ((cstr remain_str).length + d.length)) NUL) := by
  unfold TCPSocketInterface.read_data
  simp only [ReadResult.data]
  rw [read_str_cstr LEN d hd hnul]
  have h1 : ¬ ((d.length : Int) < 0) := by omega
  have h2 : ¬ ((d.length : Int) = LEN) := by omega
  have h3 : ¬ ((d.length : Int) = 0) := by omega
  have h4 : ¬ (((cstr remain_str ++ d).length : Int) < 0) := by omega
  have h5 : ¬ (((cstr remain_str ++ d).length : Int) ≥ 2 * LEN) := by
    simp only [List.length_append]; omega
  have h0 : ¬ (2 * LEN = 0) := by omega
  simp only [h1, h2, h3, h4, h5, h0, if_false]
  congr 1
  unfold store
  have h6 : List.take (2 * LEN - 1) (cstr remain_str ++ d) = cstr remain_str ++ d := by
    apply List.take_of_length_le
    simp only [List.length_append]; omega
  rw [h6]
  clear h4 h5 h6
  simp only [List.take_zero, List.nil_append, Nat.zero_add, List.drop_replicate,
    List.length_append, List.length_singleton, List.append_assoc]
  congr 1
  congr 1
  obtain ⟨k, hk⟩ : ∃ k, 2 * LEN - ((cstr remain_str).length + d.length) = k + 1 :=
    ⟨2 * LEN - ((cstr remain_str).length + d.length) - 1, by omega⟩
  rw [hk, List.replicate_succ]
  rw [List.singleton_append]
  congr 2
  omega

/-- C4 (amended): for every remainder held in `remain_str` and every received
byte sequence `d` without a NUL byte, with `0 < |d| < KSERVER_READ_STR_LEN`
and `|r| + |d| < 2*KSERVER_READ_STR_LEN`, `read_data` returns 0 and `buff_str`
holds the remainder followed by `d`, each byte once and in order, then only
NUL bytes. -/
theorem read_data_concat (LEN : Nat) (remain_str d : List Char)
    (hd0 : 0 < d.length) (hd : d.length < LEN) (hnul : NUL ∉ d)
    (hlen : (cstr remain_str).length + d.length < 2 * LEN) :
    TCPSocketInterface.read_data LEN remain_str (ReadResult.data d) =
      (0, cstr remain_str ++ d ++
            List.replicate (2 * LEN - ((cstr remain_str).length + d.length)) NUL) :=
  read_data_no_nul LEN remain_str d hd0 hd hnul hlen

/-- C5, at a concrete input: a read of 0 bytes with `KSERVER_READ_STR_LEN = 4`. -/
theorem read_data_close_vs_error_witness :
    0 < 4 ∧
    (((TCPSocketInterface.read_data 4 ['a'] ⟨0, []⟩).1 = 1 ↔ (⟨0, []⟩ : ReadResult).ret = 0) ∧
     ((⟨0, []⟩ : ReadResult).ret < 0 → (TCPSocketInterface.read_data 4 ['a'] ⟨0, []⟩).1 = -1) ∧
     ((TCPSocketInterface.read_data 4 ['a'] ⟨0, []⟩).1 = 0 → 0 < (⟨0, []⟩ : ReadResult).ret)) :=
  ⟨by decide, read_data_close_vs_error 4 (by decide) ['a'] ⟨0, []⟩⟩

/-- C4 as stated fails on a received byte sequence that holds a NUL byte: with
`KSERVER_READ_STR_LEN = 4`, remainder `ab` and the three received bytes
`c`, NUL, `d`, the call returns 0 but `buff_str` holds `abc` followed by NUL
bytes; the byte `d` is lost. -/
theorem read_data_drops_after_nul :
    (0 < ['c', NUL, 'd'].length ∧ ['c', NUL, 'd'].length < 4 ∧
      ['a', 'b'].length + ['c', NUL, 'd'].length < 2 * 4) ∧
    TCPSocketInterface.read_data 4 ['a', 'b'] (ReadResult.data ['c', NUL, 'd']) =
      (0, ['a', 'b', 'c', NUL, NUL, NUL, NUL, NUL]) ∧
    (TCPSocketInterface.read_data 4 ['a', 'b'] (ReadResult.data ['c', NUL, 'd'])).2.take 5 ≠
      ['a', 'b'] ++ ['c', NUL, 'd'] := by
  decide

/-- C4 (amended), at a concrete input: remainder `ab`, received `cd`,
`KSERVER_READ_STR_LEN = 4`. -/
theorem read_data_concat_witness :
    TCPSocketInterface.read_data 4 ['a', 'b'] (ReadResult.data ['c', 'd']) =
      (0, cstr ['a', 'b'] ++ ['c', 'd'] ++
            List.replicate (2 * 4 - ((cstr ['a', 'b']).length + ['c', 'd'].length)) NUL) :=
  read_data_concat 4 ['a', 'b'] ['c', 'd'] (by decide) (by decide) (by decide) (by decide)

/-! ## Properties of `RcvDataBuffer` and `RcvHandshake` -/

theorem toInt32_of_small (n : Nat) (h : n < 2 ^ 31) : toInt32 n = n := by
  unfold toInt32
  omega

theorem store_take (buff c : List Char) (off : Nat) (h : off ≤ buff.length) :
    (store buff off c).take (off + c.length) = buff.take off ++ c := by
  unfold store
  rw [List.take_append_of_le_length (by simp [h])]
  apply List.take_of_length_le
  simp [h]

theorem store_drop (buff c : List Char) (off n : Nat) (h : off ≤ buff.length)
    (hn : off + c.length ≤ n) : (store buff off c).drop n = buff.drop n := by
  unfold store
  rw [List.drop_append_eq_append_drop]
  have h1 : (List.take off buff ++ c).length = off + c.length := by simp [h]
  rw [h1, List.drop_of_length_le (by omega), List.drop_drop, List.nil_append]
  congr 1
  omega

theorem store_length_ge (buff c : List Char) (off : Nat) (h : off ≤ buff.length) :
    off + c.length ≤ (store buff off c).length := by
  unfold store
  simp [h]

/-- The loop of `RcvDataBuffer`, entered with `bytes_read` bytes already
received and fed with non-empty chunks that complete the `n` bytes, returns
`n` and leaves the chunks in the buffer from offset `bytes_read` on. -/
theorem RcvDataBuffer_loop_chunks (BUFF_LEN n : Nat) (hB : BUFF_LEN < 2 ^ 31)
    (hn : n ≤ BUFF_LEN) (rest : List ReadResult) :
    ∀ (chunks : List (List Char)) (bytes_read : Nat) (buff : List Char),
      (∀ c ∈ chunks, c ≠ []) → bytes_read + chunks.flatten.length = n →
      bytes_read ≤ buff.length →
      RcvDataBuffer_loop BUFF_LEN n bytes_read buff (chunks.map ReadResult.data ++ rest) =
        .returned n n (buff.take bytes_read ++ chunks.flatten ++ buff.drop n) rest := by
  intro chunks
  induction chunks with
  | nil =>
    intro bytes_read buff _ hsum hlen
    simp only [List.flatten_nil, List.length_nil, Nat.add_zero] at hsum
    subst hsum
    cases rest <;>
      simp [RcvDataBuffer_loop, toInt32_of_small bytes_read (by omega)]
  | cons c cs ih =>
    intro bytes_read buff hne hsum hlen
    have hc : c ≠ [] := hne c (by simp)
    have hcl : 0 < c.length := List.length_pos.mpr hc
    simp only [List.flatten_cons, List.length_append] at hsum
    have hlt : bytes_read < n := by omega
    have h1 : ¬ ((c.length : Int) < -1) := by omega
    have h2 : ¬ ((c.length : Int) = 0) := by omega
    have h3 : (((bytes_read : Int) + (c.length : Int)) % 2 ^ 32).toNat = bytes_read + c.length := by
      omega
    have h4 : ¬ (bytes_read + c.length > BUFF_LEN) := by omega
    simp only [List.map_cons, List.cons_append, RcvDataBuffer_loop, hlt, if_true,
      ReadResult.data, h1, h2, if_false, h3, h4, List.append_eq]
    rw [ih (bytes_read + c.length) (store buff bytes_read c)
      (fun x hx => hne x (by simp [hx])) (by omega) (store_length_ge buff c bytes_read hlen)]
    rw [store_take buff c bytes_read hlen, store_drop buff c bytes_read n hlen (by omega)]
    simp [List.append_assoc]


/-- With `n_bytes = 0` the loop is not entered. -/
theorem RcvDataBuffer_zero (BUFF_LEN : Nat) (buff : List Char) (reads : List ReadResult) :
    TCPSocketInterface.RcvDataBuffer BUFF_LEN 0 buff reads = .returned 0 0 buff reads := by
  unfold TCPSocketInterface.RcvDataBuffer
  cases reads <;> simp [RcvDataBuffer_loop, toInt32]

/-- C3: for every `n_bytes` not exceeding `KSERVER_RECV_DATA_BUFF_LEN` (an
array size below `2^31`) and every sequence of successful partial reads, each
of at least one byte and together of `n_bytes` bytes,
`TCPSocketInterface::RcvDataBuffer` returns, its value is exactly `n_bytes`,
it consumes exactly these reads, and `recv_data_buff` starts with the chunks
in arrival order, whatever the chunking. -/
theorem RcvDataBuffer_exact (BUFF_LEN : Nat) (hB : BUFF_LEN < 2 ^ 31)
    (recv_data_buff : List Char) (chunks : List (List Char)) (rest : List ReadResult)
    (hne : ∀ c ∈ chunks, c ≠ []) (hn : chunks.flatten.length ≤ BUFF_LEN) :
    TCPSocketInterface.RcvDataBuffer BUFF_LEN chunks.flatten.length recv_data_buff
        (chunks.map ReadResult.data ++ rest) =
      .returned chunks.flatten.length chunks.flatten.length
        (chunks.flatten ++ recv_data_buff.drop chunks.flatten.length) rest := by
  unfold TCPSocketInterface.RcvDataBuffer
  rw [RcvDataBuffer_loop_chunks BUFF_LEN chunks.flatten.length hB hn rest chunks 0
    recv_data_buff hne (by omega) (by omega)]
  simp

/-- C3, at a concrete input: four bytes arriving as 1 + 2 + 1 into a
buffer of 16 bytes. -/
theorem RcvDataBuffer_exact_witness :
    TCPSocketInterface.RcvDataBuffer 16 [['a'], ['b', 'c'], ['d']].flatten.length
        (List.replicate 16 'x') ([['a'], ['b', 'c'], ['d']].map ReadResult.data ++ []) =
      .returned [['a'], ['b', 'c'], ['d']].flatten.length
        [['a'], ['b', 'c'], ['d']].flatten.length
        ([['a'], ['b', 'c'], ['d']].flatten ++
          (List.replicate 16 'x').drop [['a'], ['b', 'c'], ['d']].flatten.length) [] :=
  RcvDataBuffer_exact 16 (by decide) (List.replicate 16 'x') [['a'], ['b', 'c'], ['d']] []
    (by decide) (by decide)

/-- C6: the code at the failing input.  One element is requested, the count is
sent, the first `read` returns 0 (peer closed): `RcvDataBuffer` returns -1,
yet `TCPSocketInterface::RcvHandshake` returns `recv_data_buff`, not
`nullptr`, because the test `n_bytes_received < 0` is made on a `uint32_t`. -/
theorem RcvHandshake_failed_receive_not_null :
    TCPSocketInterface.RcvDataBuffer 16 4 (List.replicate 16 'x') [⟨0, []⟩] =
      .returned (-1) 0 (List.replicate 16 'x') [] ∧
    TCPSocketInterface.RcvHandshake 16 1 4 (List.replicate 16 'x') [⟨0, []⟩] =
      some { sent := htonl 1, asked := some 4, receives := 1,
             ptr := some (List.replicate 16 'x') } := by
  decide

/-- C7 as stated fails for a count of `2^30` elements: the byte count handed to
`RcvDataBuffer` is `4 * 2^30` reduced modulo `2^32`, that is 0. -/
theorem RcvHandshake_byte_count_wraps :
    (TCPSocketInterface.RcvHandshake 16 (2 ^ 30) 4 (List.replicate 16 'x') []).map
        (fun h => h.asked) = some (some 0) ∧
    4 * 2 ^ 30 ≠ 0 := by
  decide

/-- C7 (amended): for every element count `N` below `2^30`, after a successful
send `TCPSocketInterface::RcvHandshake(N)` calls `RcvDataBuffer` with exactly
`N * 4` bytes, and returns when that call returns. -/
theorem RcvHandshake_asks_four_times (BUFF_LEN buff_size : Nat) (send_ret : Int)
    (recv_data_buff : List Char) (reads : List ReadResult)
    (hsend : 0 ≤ send_ret) (hN : buff_size < 2 ^ 30) :
    TCPSocketInterface.RcvHandshake BUFF_LEN buff_size send_ret recv_data_buff reads =
      match TCPSocketInterface.RcvDataBuffer BUFF_LEN (4 * buff_size) recv_data_buff reads with
      | .returned _ _ buff rest =>
        some { sent := htonl buff_size, asked := some (4 * buff_size),
               receives := reads.length - rest.length, ptr := some buff }
      | _ => none := by
  unfold TCPSocketInterface.RcvHandshake
  have h1 : ¬ send_ret < 0 := by omega
  have h2 : 4 * buff_size % 2 ^ 32 = 4 * buff_size := Nat.mod_eq_of_lt (by omega)
  simp only [h1, if_false, h2]
  split <;> simp

/-- C7 (amended), at a concrete input: three elements are twelve bytes. -/
theorem RcvHandshake_asks_four_times_witness :
    TCPSocketInterface.RcvHandshake 16 3 4 (List.replicate 16 'x') [] =
      match TCPSocketInterface.RcvDataBuffer 16 (4 * 3) (List.replicate 16 'x') [] with
      | .returned _ _ buff rest =>
        some { sent := htonl 3, asked := some (4 * 3),
               receives := ([] : List ReadResult).length - rest.length, ptr := some buff }
      | _ => none :=
  RcvHandshake_asks_four_times 16 3 4 (List.replicate 16 'x') [] (by decide) (by decide)

/-- C8 as stated fails on the WebSocket transport: `RcvHandshake(0)` calls
`websock.receive()` once, and when that call fails it returns `nullptr`. -/
theorem WebSocket_RcvHandshake_zero_receives :
    (WebSocketInterface.RcvHandshake 0 4 ⟨-1, [], 0⟩ (List.replicate 16 'x')).receives = 1 ∧
    (WebSocketInterface.RcvHandshake 0 4 ⟨-1, [], 0⟩ (List.replicate 16 'x')).ptr = none := by
  decide

/-- C8 (amended): after a successful send of the count 0,
`TCPSocketInterface::RcvHandshake(0)` returns `recv_data_buff` untouched
without any read on the connection, whereas
`WebSocketInterface::RcvHandshake(0)` sends the count 0, performs one
`websock.receive()` and returns a non-null buffer exactly when that receive
succeeds with an empty payload and the payload copy succeeds. -/
theorem RcvHandshake_zero (BUFF_LEN : Nat) (send_ret : Int) (recv_data_buff : List Char)
    (reads : List ReadResult) (ws : WebSockCalls) (hsend : 0 ≤ send_ret) :
    TCPSocketInterface.RcvHandshake BUFF_LEN 0 send_ret recv_data_buff reads =
      some { sent := 0, asked := some 0, receives := 0, ptr := some recv_data_buff } ∧
    (WebSocketInterface.RcvHandshake 0 send_ret ws recv_data_buff).sent = 0 ∧
    (WebSocketInterface.RcvHandshake 0 send_ret ws recv_data_buff).receives = 1 ∧
    ((WebSocketInterface.RcvHandshake 0 send_ret ws recv_data_buff).ptr ≠ none ↔
      (0 ≤ ws.receive ∧ ws.receive % 2 ^ 32 = 0 ∧ 0 ≤ ws.get_payload)) := by
  have h1 : ¬ send_ret < 0 := by omega
  refine ⟨?_, ?_, ?_, ?_⟩
  · unfold TCPSocketInterface.RcvHandshake
    simp only [h1, if_false, Nat.mul_zero, Nat.zero_mod, RcvDataBuffer_zero]
    simp [htonl]
  · unfold WebSocketInterface.RcvHandshake
    simp only [h1, if_false]
    split_ifs <;> rfl
  · unfold WebSocketInterface.RcvHandshake
    simp only [h1, if_false]
    split_ifs <;> rfl
  · unfold WebSocketInterface.RcvHandshake
    simp only [h1, if_false, Nat.mul_zero, Nat.zero_mod]
    split_ifs with a b c
    · simp; omega
    · simp; omega
    · simp; omega
    · simp; omega

/-- C8 (amended), at a concrete input: a successful send, an empty frame. -/
theorem RcvHandshake_zero_witness :
    TCPSocketInterface.RcvHandshake 16 0 4 (List.replicate 16 'x') [] =
      some { sent := 0, asked := some 0, receives := 0, ptr := some (List.replicate 16 'x') } ∧
    (WebSocketInterface.RcvHandshake 0 4 ⟨0, [], 0⟩ (List.replicate 16 'x')).sent = 0 ∧
    (WebSocketInterface.RcvHandshake 0 4 ⟨0, [], 0⟩ (List.replicate 16 'x')).receives = 1 ∧
    ((WebSocketInterface.RcvHandshake 0 4 ⟨0, [], 0⟩ (List.replicate 16 'x')).ptr ≠ none ↔
      (0 ≤ (⟨0, [], 0⟩ : WebSockCalls).receive ∧ (⟨0, [], 0⟩ : WebSockCalls).receive % 2 ^ 32 = 0 ∧
        0 ≤ (⟨0, [], 0⟩ : WebSockCalls).get_payload)) :=
  RcvHandshake_zero 16 4 (List.replicate 16 'x') [] ⟨0, [], 0⟩ (by decide)

/-! ## Properties of the session-list parser -/

/-- The branch of the newline, guard by guard. -/
theorem on_newline_eq (sz : Sizes) (s : ParseState) :
    on_newline sz s =
      if strstr (cstr s.tmp_buff) ['E', 'O', 'R', 'S'] then .stop (.sessions s.sessions)
      else if TMP_BUFF_LEN ≤ s.tmp_buff_cnt then .stop .undefined
      else if sz.PERMS_LEN ≤ (cstr (s.tmp_buff.set s.tmp_buff_cnt NUL)).length then
        .stop .undefined
      else if sz.MAX_SESS_NUM ≤ s.sessions.length then .stop .undefined
      else .next
        { tmp_buff := (s.tmp_buff.set s.tmp_buff_cnt NUL).set 0 NUL, tmp_buff_cnt := 0,
          current_field := SESS_FIELD_ID,
          tmp_session :=
            { s.tmp_session with permissions := cstr (s.tmp_buff.set s.tmp_buff_cnt NUL) },
          sessions := s.sessions ++
            [{ s.tmp_session with permissions := cstr (s.tmp_buff.set s.tmp_buff_cnt NUL) }] } := by
  unfold on_newline __append_session
  dsimp only
  split_ifs <;> rfl

/-- At the start of a line, the line `EORS` leaves the loop with the sessions
parsed so far. -/
theorem parse_loop_EORS (sz : Sizes) (s : ParseState) (post : List Char)
    (hlen : s.tmp_buff.length = TMP_BUFF_LEN) (hcnt : s.tmp_buff_cnt = 0) :
    parse_loop sz s (EORS_line ++ post) = .sessions s.sessions := by
  obtain ⟨buf, cnt, fld, t, l⟩ := s
  simp only at hlen hcnt
  subst hcnt
  match buf, hlen with
  | a :: b :: c :: d :: rest, _ =>
    simp [EORS_line, parse_loop, parse_step, on_other, on_newline, TMP_BUFF_LEN, cstr,
      strstr, startsWith, NUL, List.takeWhile]

/-- The bytes of a field are stored one after the other from index
`tmp_buff_cnt`. -/
theorem parse_loop_write (sz : Sizes) (rest : List Char) :
    ∀ (f pre old post : List Char) (fld : Nat) (t : session_status) (l : List session_status),
      (∀ c ∈ f, c ≠ ':' ∧ c ≠ '\n') → old.length = f.length →
      pre.length + f.length ≤ TMP_BUFF_LEN →
      parse_loop sz ⟨pre ++ old ++ post, pre.length, fld, t, l⟩ (f ++ rest) =
        parse_loop sz ⟨pre ++ f ++ post, pre.length + f.length, fld, t, l⟩ rest := by
  intro f
  induction f with
  | nil =>
    intro pre old post fld t l _ hold _
    have : old = [] := List.length_eq_zero.mp (by simpa using hold)
    subst this
    simp
  | cons c f ih =>
    intro pre old post fld t l hf hold hlen
    obtain ⟨o, olds, rfl⟩ : ∃ o olds, old = o :: olds := by
      cases old with
      | nil => simp at hold
      | cons o olds => exact ⟨o, olds, rfl⟩
    have hc := hf c (by simp)
    have hcnt : ¬ TMP_BUFF_LEN ≤ pre.length := by
      simp only [List.length_cons] at hlen; omega
    have hset : (pre ++ o :: olds ++ post).set pre.length c = (pre ++ [c]) ++ olds ++ post := by
      rw [List.append_assoc, List.set_append_right _ _ (Nat.le_refl _)]
      simp
    have := ih (pre ++ [c]) olds post fld t l (fun x hx => hf x (by simp [hx]))
      (by simpa using hold) (by simp only [List.length_append, List.length_cons,
        List.length_nil] at hlen ⊢; omega)
    simp only [List.cons_append, parse_loop, parse_step, hc.1, hc.2, if_false, on_other, hcnt,
      hset, List.append_eq]
    simp only [List.length_append, List.length_cons, List.length_nil, Nat.zero_add] at this
    rw [this]
    congr 2
    · simp
    · simp only [List.length_cons]; omega

/-- A field read from the start of `tmp_buff` overwrites its first bytes and
leaves the others as they were. -/
theorem parse_loop_field (sz : Sizes) (buf f rest : List Char) (fld : Nat)
    (t : session_status) (l : List session_status)
    (hf : ∀ c ∈ f, c ≠ ':' ∧ c ≠ '\n') (hlen : buf.length = TMP_BUFF_LEN)
    (hfl : f.length < TMP_BUFF_LEN) :
    parse_loop sz ⟨buf, 0, fld, t, l⟩ (f ++ rest) =
      parse_loop sz ⟨f ++ buf.drop f.length, f.length, fld, t, l⟩ rest := by
  have h := parse_loop_write sz rest f [] (buf.take f.length) (buf.drop f.length) fld t l hf
    (by simp [hlen]; omega) (by simp; omega)
  simpa using h

theorem set_after_field (buf f : List Char) (h : f.length < buf.length) :
    (f ++ buf.drop f.length).set f.length NUL = f ++ NUL :: buf.drop (f.length + 1) := by
  rw [List.set_append_right _ _ (Nat.le_refl _)]
  congr 1
  rw [Nat.sub_self, List.drop_eq_getElem_cons h]
  rfl


/-- A field followed by the delimiter: the switch sees the field as the C
string of `tmp_buff`. -/
theorem parse_loop_colon (sz : Sizes) (buf f rest : List Char) (fld : Nat)
    (t : session_status) (l : List session_status)
    (hf : plainField f) (hlen : buf.length = TMP_BUFF_LEN) (hfl : f.length < TMP_BUFF_LEN) :
    parse_loop sz ⟨buf, 0, fld, t, l⟩ (f ++ ':' :: rest) =
      match switch_field sz ⟨buf, 0, fld, t, l⟩ (f ++ NUL :: buf.drop (f.length + 1)) f with
      | .next s1 => parse_loop sz s1 rest
      | .stop o => o := by
  have hnul : NUL ∉ f := fun h => (hf NUL h).2.2 rfl
  rw [parse_loop_field sz buf f _ fld t l (fun c hc => ⟨(hf c hc).1, (hf c hc).2.1⟩) hlen hfl]
  have hg : ¬ TMP_BUFF_LEN ≤ f.length := by omega
  simp only [parse_loop, parse_step, if_true, on_colon, hg, if_false]
  rw [set_after_field buf f (by omega), cstr_append_nul f _ hnul]
  rfl

theorem cstr_getElem? : ∀ (l : List Char) (i : Nat) (c : Char),
    (cstr l)[i]? = some c → l[i]? = some c := by
  intro l
  induction l with
  | nil => intro i c h; simp [cstr] at h
  | cons a t ih =>
    intro i c h
    unfold cstr at h
    rw [List.takeWhile_cons] at h
    split at h
    · cases i with
      | zero => simpa using h
      | succ j =>
        simp only [List.getElem?_cons_succ] at h ⊢
        exact ih j c h
    · simp at h

theorem cstr_length_le_of_nul : ∀ (l : List Char) (j : Nat),
    l[j]? = some NUL → (cstr l).length ≤ j := by
  intro l
  induction l with
  | nil => intro j h; simp at h
  | cons a t ih =>
    intro j h
    unfold cstr
    rw [List.takeWhile_cons]
    split
    · rename_i ha
      cases j with
      | zero =>
        simp only [List.getElem?_cons_zero, Option.some.injEq] at h
        subst h
        simp at ha
      | succ k =>
        simp only [List.getElem?_cons_succ] at h
        have := ih k h
        unfold cstr at this
        simp only [List.length_cons]
        omega
    · simp

/-- A text in which `EORS` occurs has the letter `R` at index 2 or later. -/
theorem strstr_EORS_has_late_R : ∀ (l : List Char),
    strstr l ['E', 'O', 'R', 'S'] = true → ∃ i, 2 ≤ i ∧ l[i]? = some 'R' := by
  intro l
  induction l with
  | nil => intro h; simp [strstr, startsWith] at h
  | cons a t ih =>
    intro h
    simp only [strstr, Bool.or_eq_true] at h
    rcases h with h | h
    · match t, h with
      | b :: c :: rest, h =>
        simp only [startsWith, Bool.and_eq_true, beq_iff_eq] at h
        exact ⟨2, Nat.le_refl _, by simp [← h.2.2.1]⟩
      | [b], h => simp [startsWith] at h
      | [], h => simp [startsWith] at h
    · obtain ⟨i, hi, hR⟩ := ih h
      exact ⟨i + 1, by omega, by simpa using hR⟩

theorem noLateR_getElem? (f : List Char) (h : noLateR f) (i : Nat) (hi : 2 ≤ i) :
    f[i]? ≠ some 'R' := by
  intro hR
  apply h
  rw [List.mem_iff_getElem?]
  refine ⟨i - 2, ?_⟩
  rw [List.getElem?_drop]
  have : 2 + (i - 2) = i := by omega
  rw [this]
  exact hR

/-- When the stale bytes behind the current field are cut by a NUL byte and
hold no late `R`, the search for `EORS` fails. -/
theorem no_EORS_below_barrier (buf f : List Char) (hi : Nat) (hb : barrier buf hi)
    (hhi : f.length ≤ hi) (hR : noLateR f) :
    strstr (cstr (f ++ buf.drop f.length)) ['E', 'O', 'R', 'S'] = false := by
  by_contra hne
  have htrue : strstr (cstr (f ++ buf.drop f.length)) ['E', 'O', 'R', 'S'] = true := by
    simpa using hne
  obtain ⟨i, hi2, hiR⟩ := strstr_EORS_has_late_R _ htrue
  have hB := cstr_getElem? _ i _ hiR
  have hnul : (f ++ buf.drop f.length)[hi]? = some NUL := by
    rw [List.getElem?_append_right hhi, List.getElem?_drop]
    have : f.length + (hi - f.length) = hi := by omega
    rw [this]
    exact hb.1
  have hlen := cstr_length_le_of_nul _ hi hnul
  have hilt : i < (cstr (f ++ buf.drop f.length)).length := by
    by_contra hge
    rw [List.getElem?_eq_none (by omega)] at hiR
    simp at hiR
  by_cases hif : i < f.length
  · rw [List.getElem?_append_left hif] at hB
    exact noLateR_getElem? f hR i hi2 hB
  · rw [List.getElem?_append_right (by omega), List.getElem?_drop] at hB
    have : f.length + (i - f.length) = i := by omega
    rw [this] at hB
    exact hb.2 i hi2 (by omega) hB

/-- A last field followed by the newline: the search for `EORS` fails, the
field becomes `permissions` and the session is appended. -/
theorem parse_loop_newline (sz : Sizes) (buf f rest : List Char) (fld : Nat)
    (t : session_status) (l : List session_status) (hi : Nat)
    (hf : plainField f) (hlen : buf.length = TMP_BUFF_LEN) (hfl : f.length < TMP_BUFF_LEN)
    (hb : barrier buf hi) (hhi : f.length ≤ hi) (hR : noLateR f)
    (hperm : f.length < sz.PERMS_LEN) (hmax : l.length < sz.MAX_SESS_NUM) :
    parse_loop sz ⟨buf, 0, fld, t, l⟩ (f ++ '\n' :: rest) =
      parse_loop sz ⟨afterField buf f, 0, SESS_FIELD_ID, { t with permissions := f },
        l ++ [{ t with permissions := f }]⟩ rest := by
  have hnul : NUL ∉ f := fun h => (hf NUL h).2.2 rfl
  rw [parse_loop_field sz buf f _ fld t l (fun c hc => ⟨(hf c hc).1, (hf c hc).2.1⟩) hlen hfl]
  have hne : ('\n' : Char) ≠ ':' := by decide
  simp only [parse_loop, parse_step, hne, if_false, if_true, on_newline_eq]
  have h1 := no_EORS_below_barrier buf f hi hb hhi hR
  have h2 : ¬ TMP_BUFF_LEN ≤ f.length := by omega
  simp only [h1, Bool.false_eq_true, if_false, h2]
  rw [set_after_field buf f (by omega), cstr_append_nul f _ hnul]
  have h3 : ¬ sz.PERMS_LEN ≤ f.length := by omega
  have h4 : ¬ sz.MAX_SESS_NUM ≤ l.length := by omega
  simp only [h3, h4, if_false]
  rfl

/-! ### Decimal text and `strtol` -/

theorem digitChar_isdigit (d : Nat) (h : d < 10) : isdigit (digitChar d) = true := by
  interval_cases d <;> decide

theorem digitVal_digitChar (d : Nat) (h : d < 10) : digitVal (digitChar d) = d := by
  interval_cases d <;> decide

theorem decimalAux_append : ∀ (fuel n : Nat) (acc : List Char),
    decimalAux fuel n acc = decimalAux fuel n [] ++ acc := by
  intro fuel
  induction fuel with
  | zero => intro n acc; simp [decimalAux]
  | succ k ih =>
    intro n acc
    simp only [decimalAux]
    split_ifs
    · simp
    · rw [ih (n / 10) (digitChar (n % 10) :: acc), ih (n / 10) [digitChar (n % 10)]]
      simp

theorem decimalAux_isdigit : ∀ (fuel n : Nat), ∀ c ∈ decimalAux fuel n [], isdigit c = true := by
  intro fuel
  induction fuel with
  | zero => intro n c hc; simp [decimalAux] at hc
  | succ k ih =>
    intro n c hc
    simp only [decimalAux] at hc
    split_ifs at hc with h
    · simp only [List.mem_singleton] at hc
      subst hc
      exact digitChar_isdigit n h
    · rw [decimalAux_append] at hc
      simp only [List.mem_append, List.mem_singleton] at hc
      rcases hc with hc | hc
      · exact ih (n / 10) c hc
      · subst hc
        exact digitChar_isdigit _ (Nat.mod_lt _ (by decide))

theorem digitsVal_append_singleton (a : List Char) (c : Char) :
    digitsVal (a ++ [c]) = 10 * digitsVal a + digitVal c := by
  simp [digitsVal, List.foldl_append]

/-- Reading the digits written gives the number back. -/
theorem digitsVal_decimalAux : ∀ (fuel n : Nat), n < 10 ^ fuel →
    digitsVal (decimalAux fuel n []) = n := by
  intro fuel
  induction fuel with
  | zero =>
    intro n h
    simp only [pow_zero, Nat.lt_one_iff] at h
    subst h
    rfl
  | succ k ih =>
    intro n h
    simp only [decimalAux]
    split_ifs with h10
    · simp [digitsVal, digitVal_digitChar n h10]
    · rw [decimalAux_append, digitsVal_append_singleton,
        ih (n / 10) (by rw [pow_succ] at h; omega),
        digitVal_digitChar _ (Nat.mod_lt _ (by decide))]
      omega

theorem decimalAux_length : ∀ (fuel n k : Nat), 1 ≤ k → n < 10 ^ k →
    (decimalAux fuel n []).length ≤ k := by
  intro fuel
  induction fuel with
  | zero => intro n k _ _; simp [decimalAux]
  | succ m ih =>
    intro n k hk h
    simp only [decimalAux]
    split_ifs with h10
    · simpa using hk
    · rw [decimalAux_append]
      obtain ⟨j, rfl⟩ : ∃ j, k = j + 1 := ⟨k - 1, by omega⟩
      have hj : 1 ≤ j := by
        by_contra hc
        have : j = 0 := by omega
        subst this
        simp at h
        omega
      have := ih (n / 10) j hj (by rw [pow_succ] at h; omega)
      simp only [List.length_append, List.length_singleton]
      omega

theorem decimalNat_ne_nil (n : Nat) : decimalNat n ≠ [] := by
  unfold decimalNat
  simp only [decimalAux]
  split_ifs
  · simp
  · rw [decimalAux_append]; simp

theorem digitsVal_decimalNat (n : Nat) : digitsVal (decimalNat n) = n := by
  unfold decimalNat
  apply digitsVal_decimalAux
  calc n < 10 ^ n := Nat.lt_pow_self (by decide) n
    _ ≤ 10 ^ (n + 1) := Nat.pow_le_pow_right (by decide) (by omega)

theorem decimalNat_isdigit (n : Nat) : ∀ c ∈ decimalNat n, isdigit c = true :=
  decimalAux_isdigit (n + 1) n

theorem decimalNat_length (n : Nat) (h : n < 10 ^ 19) : (decimalNat n).length ≤ 19 :=
  decimalAux_length (n + 1) n 19 (by decide) h

theorem takeWhile_all (p : Char → Bool) (l : List Char) (h : ∀ c ∈ l, p c = true) :
    l.takeWhile p = l := by
  induction l with
  | nil => rfl
  | cons a t ih =>
    rw [List.takeWhile_cons, h a (by simp), ih (fun c hc => h c (by simp [hc]))]
    rfl

theorem isdigit_facts (c : Char) (h : isdigit c = true) :
    isspace c = false ∧ c ≠ '-' ∧ c ≠ '+' ∧ c ≠ ':' ∧ c ≠ '\n' ∧ c ≠ NUL ∧ c ≠ 'R' := by
  unfold isdigit at h
  simp only [Bool.and_eq_true, decide_eq_true_eq] at h
  refine ⟨?_, ?_, ?_, ?_, ?_, ?_, ?_⟩
  · unfold isspace
    have : c ≠ ' ' := by rintro rfl; simp at h
    simp [this]
    omega
  all_goals (rintro rfl; revert h; decide)

theorem strtol_digits (l : List Char) (hne : l ≠ []) (hd : ∀ c ∈ l, isdigit c = true)
    (hmax : (digitsVal l : Int) ≤ LONG_MAX) : strtol l = digitsVal l := by
  obtain ⟨a, t, rfl⟩ := List.exists_cons_of_ne_nil hne
  have ha := isdigit_facts a (hd a (by simp))
  unfold strtol
  have h1 : List.dropWhile isspace (a :: t) = a :: t := by
    rw [List.dropWhile_cons, ha.1]; rfl
  simp only [h1, List.head?_cons]
  have h2 : (some a == some '-') = false := by simpa using ha.2.1
  have h3 : (some a == some '+') = false := by simpa using ha.2.2.1
  simp only [h2, h3, Bool.or_self, Bool.false_eq_true, if_false]
  rw [takeWhile_all isdigit (a :: t) hd]
  have h4 : ¬ ((digitsVal (a :: t) : Int) > LONG_MAX) := by omega
  have h5 : ¬ ((digitsVal (a :: t) : Int) < LONG_MIN) := by unfold LONG_MIN; omega
  simp only [h4, h5, if_false]

theorem strtol_minus_digits (l : List Char) (hd : ∀ c ∈ l, isdigit c = true)
    (hmin : LONG_MIN ≤ -(digitsVal l : Int)) : strtol ('-' :: l) = -(digitsVal l : Int) := by
  unfold strtol
  have h1 : List.dropWhile isspace ('-' :: l) = '-' :: l := by
    rw [List.dropWhile_cons]; rfl
  simp only [h1, List.head?_cons, beq_self_eq_true, Bool.true_or, if_true, List.tail_cons]
  rw [takeWhile_all isdigit l hd]
  have h4 : ¬ (-(digitsVal l : Int) > LONG_MAX) := by unfold LONG_MAX; omega
  have h5 : ¬ (-(digitsVal l : Int) < LONG_MIN) := by omega
  simp only [h4, h5, if_false]

/-- The function `strtol` reads back the decimal text of every value of type
`long`. -/
theorem strtol_decimal (i : Int) (h : fitsLong i) : strtol (decimal i) = i := by
  unfold fitsLong at h
  unfold decimal
  split_ifs with hneg
  · rw [strtol_minus_digits _ (decimalNat_isdigit _), digitsVal_decimalNat]
    · omega
    · rw [digitsVal_decimalNat]; omega
  · rw [strtol_digits _ (decimalNat_ne_nil _) (decimalNat_isdigit _), digitsVal_decimalNat]
    · omega
    · rw [digitsVal_decimalNat]; omega

theorem toInt32_of_fitsInt (i : Int) (h : fitsInt i) : toInt32 i = i := by
  unfold fitsInt INT_MIN INT_MAX at h
  unfold toInt32
  omega

theorem fitsLong_of_fitsInt (i : Int) (h : fitsInt i) : fitsLong i := by
  unfold fitsInt INT_MIN INT_MAX at h
  unfold fitsLong LONG_MIN LONG_MAX
  omega

theorem decimal_chars (i : Int) : ∀ c ∈ decimal i, isdigit c = true ∨ c = '-' := by
  intro c hc
  unfold decimal at hc
  split_ifs at hc
  · simp only [List.mem_cons] at hc
    rcases hc with hc | hc
    · exact Or.inr hc
    · exact Or.inl (decimalNat_isdigit _ c hc)
  · exact Or.inl (decimalNat_isdigit _ c hc)

theorem decimal_plainField (i : Int) : plainField (decimal i) := by
  intro c hc
  rcases decimal_chars i c hc with h | h
  · have := isdigit_facts c h
    exact ⟨this.2.2.2.1, this.2.2.2.2.1, this.2.2.2.2.2.1⟩
  · subst h; decide

theorem decimal_noLateR (i : Int) : noLateR (decimal i) := by
  intro hR
  rcases decimal_chars i 'R' (List.mem_of_mem_drop hR) with h | h
  · revert h; decide
  · revert h; decide

theorem decimal_length (i : Int) (h : fitsLong i) : (decimal i).length < TMP_BUFF_LEN := by
  unfold fitsLong LONG_MIN LONG_MAX at h
  have hn : i.natAbs < 10 ^ 19 := by omega
  have := decimalNat_length i.natAbs hn
  unfold decimal TMP_BUFF_LEN
  split_ifs
  · simp only [List.length_cons]; omega
  · omega

theorem afterField_length (buf f : List Char) (h : f.length < buf.length) :
    (afterField buf f).length = buf.length := by
  unfold afterField
  simp only [List.length_set, List.length_append, List.length_cons, List.length_drop]
  omega

theorem afterField_getElem? (buf f : List Char) (i : Nat) (hi : i ≠ 0) :
    (afterField buf f)[i]? =
      if i < f.length then f[i]? else if i = f.length then some NUL else buf[i]? := by
  unfold afterField
  rw [List.getElem?_set_ne (Ne.symm hi)]
  split_ifs with h1 h2
  · exact List.getElem?_append_left h1
  · rw [List.getElem?_append_right (by omega), h2, Nat.sub_self]
    simp
  · rw [List.getElem?_append_right (by omega)]
    obtain ⟨k, hk⟩ : ∃ k, i - f.length = k + 1 := ⟨i - f.length - 1, by omega⟩
    rw [hk, List.getElem?_cons_succ, List.getElem?_drop]
    congr 1
    omega

theorem afterField_zero (buf f : List Char) : (afterField buf f)[0]? = some NUL := by
  unfold afterField
  rw [List.getElem?_set]
  simp

theorem barrier_fresh (buf f : List Char) (hR : noLateR f) :
    barrier (afterField buf f) f.length := by
  constructor
  · by_cases h0 : f.length = 0
    · rw [h0]; exact afterField_zero buf f
    · rw [afterField_getElem? buf f f.length h0]
      simp
  · intro i hi2 hif
    rw [afterField_getElem? buf f i (by omega), if_pos hif]
    exact noLateR_getElem? f hR i hi2

theorem barrier_keep (buf f : List Char) (hi : Nat) (hb : barrier buf hi) (hR : noLateR f)
    (hlt : f.length < hi) : barrier (afterField buf f) hi := by
  constructor
  · rw [afterField_getElem? buf f hi (by omega), if_neg (by omega), if_neg (by omega)]
    exact hb.1
  · intro i hi2 hif
    rw [afterField_getElem? buf f i (by omega)]
    split_ifs with h1 h2
    · exact noLateR_getElem? f hR i hi2
    · simp only [ne_eq, Option.some.injEq]; decide
    · exact hb.2 i hi2 hif

/-- Processing one more field keeps a NUL byte at or behind the end of the
longest field seen, with no late `R` before it. -/
theorem barrier_grow (buf f : List Char) (hi : Nat) (hb : barrier buf hi) (hR : noLateR f) :
    ∃ hi1, hi ≤ hi1 ∧ f.length ≤ hi1 ∧ barrier (afterField buf f) hi1 := by
  by_cases hlt : f.length < hi
  · exact ⟨hi, Nat.le_refl _, by omega, barrier_keep buf f hi hb hR hlt⟩
  · exact ⟨f.length, by omega, Nat.le_refl _, barrier_fresh buf f hR⟩

theorem conn_type_str_facts (ct : ConnType) :
    plainField (conn_type_str ct) ∧ noLateR (conn_type_str ct) ∧
      (conn_type_str ct).length < TMP_BUFF_LEN := by
  cases ct <;> decide

theorem field_int (sz : Sizes) (buf rest : List Char) (fld : Nat) (t : session_status)
    (l : List session_status) (i : Int) (hlen : buf.length = TMP_BUFF_LEN) (hi : fitsLong i) :
    parse_loop sz ⟨buf, 0, fld, t, l⟩ (decimal i ++ ':' :: rest) =
      match switch_field sz ⟨buf, 0, fld, t, l⟩
          (decimal i ++ NUL :: buf.drop ((decimal i).length + 1)) (decimal i) with
      | .next s1 => parse_loop sz s1 rest
      | .stop o => o :=
  parse_loop_colon sz buf (decimal i) rest fld t l (decimal_plainField i) hlen
    (decimal_length i hi)


theorem step_id (sz : Sizes) (buf rest : List Char) (t : session_status)
    (l : List session_status) (i : Int) (hlen : buf.length = TMP_BUFF_LEN) (hi : fitsInt i) :
    parse_loop sz ⟨buf, 0, SESS_FIELD_ID, t, l⟩ (decimal i ++ ':' :: rest) =
      parse_loop sz ⟨afterField buf (decimal i), 0, SESS_FIELD_CONN_TYPE,
        { t with sess_id := i }, l⟩ rest := by
  rw [field_int sz buf rest _ t l i hlen (fitsLong_of_fitsInt i hi)]
  simp only [switch_field, SESS_FIELD_ID, if_true, colon_done,
    strtol_decimal i (fitsLong_of_fitsInt i hi), toInt32_of_fitsInt i hi]
  rfl

theorem step_conn_type (sz : Sizes) (buf rest : List Char) (t : session_status)
    (l : List session_status) (ct : ConnType) (hlen : buf.length = TMP_BUFF_LEN) :
    parse_loop sz ⟨buf, 0, SESS_FIELD_CONN_TYPE, t, l⟩ (conn_type_str ct ++ ':' :: rest) =
      parse_loop sz ⟨afterField buf (conn_type_str ct), 0, SESS_FIELD_CLIENT_IP,
        { t with conn_type := ct }, l⟩ rest := by
  have hct := conn_type_str_facts ct
  rw [parse_loop_colon sz buf _ rest _ t l hct.1 hlen hct.2.2]
  cases ct <;>
    simp [switch_field, SESS_FIELD_ID, SESS_FIELD_CONN_TYPE, SESS_FIELD_CLIENT_IP, colon_done,
      conn_type_str, afterField]

theorem step_ip (sz : Sizes) (buf rest : List Char) (t : session_status)
    (l : List session_status) (ip : List Char) (hlen : buf.length = TMP_BUFF_LEN)
    (hip : plainField ip) (hsz : ip.length < sz.CLT_IP_LEN) (hbuf : ip.length < TMP_BUFF_LEN) :
    parse_loop sz ⟨buf, 0, SESS_FIELD_CLIENT_IP, t, l⟩ (ip ++ ':' :: rest) =
      parse_loop sz ⟨afterField buf ip, 0, SESS_FIELD_CLIENT_PORT,
        { t with clt_ip := ip }, l⟩ rest := by
  rw [parse_loop_colon sz buf _ rest _ t l hip hlen hbuf]
  have h : ¬ sz.CLT_IP_LEN ≤ ip.length := by omega
  simp [switch_field, SESS_FIELD_ID, SESS_FIELD_CONN_TYPE, SESS_FIELD_CLIENT_IP,
    SESS_FIELD_CLIENT_PORT, colon_done, afterField, h]

theorem step_port (sz : Sizes) (buf rest : List Char) (t : session_status)
    (l : List session_status) (i : Int) (hlen : buf.length = TMP_BUFF_LEN) (hi : fitsInt i) :
    parse_loop sz ⟨buf, 0, SESS_FIELD_CLIENT_PORT, t, l⟩ (decimal i ++ ':' :: rest) =
      parse_loop sz ⟨afterField buf (decimal i), 0, SESS_FIELD_REQ_NUM,
        { t with clt_port := i }, l⟩ rest := by
  rw [field_int sz buf rest _ t l i hlen (fitsLong_of_fitsInt i hi)]
  simp [switch_field, SESS_FIELD_ID, SESS_FIELD_CONN_TYPE, SESS_FIELD_CLIENT_IP,
    SESS_FIELD_CLIENT_PORT, SESS_FIELD_REQ_NUM, colon_done, afterField,
    strtol_decimal i (fitsLong_of_fitsInt i hi), toInt32_of_fitsInt i hi]

theorem step_req_num (sz : Sizes) (buf rest : List Char) (t : session_status)
    (l : List session_status) (i : Int) (hlen : buf.length = TMP_BUFF_LEN) (hi : fitsInt i) :
    parse_loop sz ⟨buf, 0, SESS_FIELD_REQ_NUM, t, l⟩ (decimal i ++ ':' :: rest) =
      parse_loop sz ⟨afterField buf (decimal i), 0, SESS_FIELD_ERR_NUM,
        { t with req_num := i }, l⟩ rest := by
  rw [field_int sz buf rest _ t l i hlen (fitsLong_of_fitsInt i hi)]
  simp [switch_field, SESS_FIELD_ID, SESS_FIELD_CONN_TYPE, SESS_FIELD_CLIENT_IP,
    SESS_FIELD_CLIENT_PORT, SESS_FIELD_REQ_NUM, SESS_FIELD_ERR_NUM, colon_done, afterField,
    strtol_decimal i (fitsLong_of_fitsInt i hi), toInt32_of_fitsInt i hi]

theorem step_err_num (sz : Sizes) (buf rest : List Char) (t : session_status)
    (l : List session_status) (i : Int) (hlen : buf.length = TMP_BUFF_LEN) (hi : fitsInt i) :
    parse_loop sz ⟨buf, 0, SESS_FIELD_ERR_NUM, t, l⟩ (decimal i ++ ':' :: rest) =
      parse_loop sz ⟨afterField buf (decimal i), 0, SESS_FIELD_UPTIME,
        { t with error_num := i }, l⟩ rest := by
  rw [field_int sz buf rest _ t l i hlen (fitsLong_of_fitsInt i hi)]
  simp [switch_field, SESS_FIELD_ID, SESS_FIELD_CONN_TYPE, SESS_FIELD_CLIENT_IP,
    SESS_FIELD_CLIENT_PORT, SESS_FIELD_REQ_NUM, SESS_FIELD_ERR_NUM, SESS_FIELD_UPTIME,
    colon_done, afterField,
    strtol_decimal i (fitsLong_of_fitsInt i hi), toInt32_of_fitsInt i hi]

theorem step_uptime (sz : Sizes) (buf rest : List Char) (t : session_status)
    (l : List session_status) (i : Int) (hlen : buf.length = TMP_BUFF_LEN) (hi : fitsLong i) :
    parse_loop sz ⟨buf, 0, SESS_FIELD_UPTIME, t, l⟩ (decimal i ++ ':' :: rest) =
      parse_loop sz ⟨afterField buf (decimal i), 0, SESS_FIELD_PERMISSIONS,
        { t with uptime := i }, l⟩ rest := by
  rw [field_int sz buf rest _ t l i hlen hi]
  simp [switch_field, SESS_FIELD_ID, SESS_FIELD_CONN_TYPE, SESS_FIELD_CLIENT_IP,
    SESS_FIELD_CLIENT_PORT, SESS_FIELD_REQ_NUM, SESS_FIELD_ERR_NUM, SESS_FIELD_UPTIME,
    SESS_FIELD_PERMISSIONS, colon_done, afterField, strtol_decimal i hi]

/-- The line of a well-formed record, read from the start of a line, appends
exactly that record. -/
theorem parse_loop_record (sz : Sizes) (r : session_status) (hr : wellFormed sz r)
    (buf : List Char) (hlen : buf.length = TMP_BUFF_LEN) (t0 : session_status)
    (l : List session_status) (hmax : l.length < sz.MAX_SESS_NUM) (rest : List Char) :
    ∃ buf1, buf1.length = TMP_BUFF_LEN ∧
      parse_loop sz ⟨buf, 0, SESS_FIELD_ID, t0, l⟩ (session_line r ++ rest) =
        parse_loop sz ⟨buf1, 0, SESS_FIELD_ID, r, l ++ [r]⟩ rest := by
  obtain ⟨h_id, h_port, h_req, h_err, h_up, h_ip, h_iplen, h_ipbuf, h_ipR, h_pm, h_pmlen,
    h_pmR, h_pmhi⟩ := hr
  obtain ⟨id, ct, ip, port, req, err, up, pm⟩ := r
  simp only at h_id h_port h_req h_err h_up h_ip h_iplen h_ipbuf h_ipR h_pm h_pmlen h_pmR h_pmhi
  have hct := conn_type_str_facts ct
  -- the buffers after each field
  have hl1 := afterField_length buf (decimal id)
    (by rw [hlen]; exact decimal_length id (fitsLong_of_fitsInt id h_id))
  have hb1 := barrier_fresh buf (decimal id) (decimal_noLateR id)
  rw [hlen] at hl1
  have hl2 := afterField_length (afterField buf (decimal id)) (conn_type_str ct)
    (by rw [hl1]; exact hct.2.2)
  rw [hl1] at hl2
  obtain ⟨hi2, _, hc2, hb2⟩ := barrier_grow _ (conn_type_str ct) _ hb1 hct.2.1
  have hl3 := afterField_length (afterField (afterField buf (decimal id)) (conn_type_str ct)) ip
    (by rw [hl2]; exact h_ipbuf)
  rw [hl2] at hl3
  obtain ⟨hi3, h23, hc3, hb3⟩ := barrier_grow _ ip _ hb2 h_ipR
  have hl4 := afterField_length _ (decimal port)
    (by rw [hl3]; exact decimal_length port (fitsLong_of_fitsInt port h_port))
  rw [hl3] at hl4
  obtain ⟨hi4, h34, _, hb4⟩ := barrier_grow _ (decimal port) _ hb3 (decimal_noLateR port)
  have hl5 := afterField_length _ (decimal req)
    (by rw [hl4]; exact decimal_length req (fitsLong_of_fitsInt req h_req))
  rw [hl4] at hl5
  obtain ⟨hi5, h45, _, hb5⟩ := barrier_grow _ (decimal req) _ hb4 (decimal_noLateR req)
  have hl6 := afterField_length _ (decimal err)
    (by rw [hl5]; exact decimal_length err (fitsLong_of_fitsInt err h_err))
  rw [hl5] at hl6
  obtain ⟨hi6, h56, _, hb6⟩ := barrier_grow _ (decimal err) _ hb5 (decimal_noLateR err)
  have hl7 := afterField_length _ (decimal up) (by rw [hl6]; exact decimal_length up h_up)
  rw [hl6] at hl7
  obtain ⟨hi7, h67, _, hb7⟩ := barrier_grow _ (decimal up) _ hb6 (decimal_noLateR up)
  have hpmbuf : pm.length < TMP_BUFF_LEN := by
    have := hb7.1
    have hlt : hi7 < TMP_BUFF_LEN := by
      by_contra hge
      rw [List.getElem?_eq_none (by rw [hl7]; omega)] at this
      simp at this
    omega
  have hl8 := afterField_length _ pm (by rw [hl7]; exact hpmbuf)
  rw [hl7] at hl8
  refine ⟨_, hl8, ?_⟩
  unfold session_line
  simp only [List.append_assoc, List.cons_append, List.nil_append]
  rw [step_id sz buf _ t0 l id hlen h_id, step_conn_type sz _ _ _ l ct hl1,
    step_ip sz _ _ _ l ip hl2 h_ip h_iplen h_ipbuf, step_port sz _ _ _ l port hl3 h_port,
    step_req_num sz _ _ _ l req hl4 h_req, step_err_num sz _ _ _ l err hl5 h_err,
    step_uptime sz _ _ _ l up hl6 h_up,
    parse_loop_newline sz _ pm rest _ _ l hi7 h_pm hl7 hpmbuf hb7 (by omega) h_pmR h_pmlen hmax]


/-- The lines of well-formed records append exactly these records, in order.
-/
theorem parse_loop_records (sz : Sizes) (rest : List Char) :
    ∀ (rs : List session_status) (buf : List Char) (t0 : session_status)
      (l : List session_status), buf.length = TMP_BUFF_LEN →
      (∀ r ∈ rs, wellFormed sz r) → l.length + rs.length ≤ sz.MAX_SESS_NUM →
      ∃ buf1 t1, buf1.length = TMP_BUFF_LEN ∧
        parse_loop sz ⟨buf, 0, SESS_FIELD_ID, t0, l⟩ ((rs.map session_line).flatten ++ rest) =
          parse_loop sz ⟨buf1, 0, SESS_FIELD_ID, t1, l ++ rs⟩ rest := by
  intro rs
  induction rs with
  | nil =>
    intro buf t0 l hlen _ _
    exact ⟨buf, t0, hlen, by simp⟩
  | cons r rs ih =>
    intro buf t0 l hlen hwf hnum
    simp only [List.length_cons] at hnum
    obtain ⟨buf1, hlen1, h1⟩ := parse_loop_record sz r (hwf r (by simp)) buf hlen t0 l
      (by omega) ((rs.map session_line).flatten ++ rest)
    have hnum1 : (l ++ [r]).length + rs.length ≤ sz.MAX_SESS_NUM := by
      simp only [List.length_append, List.length_singleton]
      omega
    obtain ⟨buf2, t2, hlen2, h2⟩ := ih buf1 r (l ++ [r]) hlen1
      (fun x hx => hwf x (by simp [hx])) hnum1
    refine ⟨buf2, t2, hlen2, ?_⟩
    simp only [List.map_cons, List.flatten_cons, List.append_assoc]
    rw [h1, h2]
    simp

/-- Once the reply text is received in full, `kclient_get_running_sessions` is
the parsing loop run on that text. -/
theorem kclient_received (sz : Sizes) (garbage : List Char) (tmp0 : session_status)
    (text : List Char) :
    kclient_get_running_sessions sz garbage tmp0 (received text) =
      parse_loop sz (parse_init garbage tmp0) text := by
  have h1 : ¬ ((text.length : Int) < 0) := by omega
  simp [kclient_get_running_sessions, __get_sessions_data, received, h1]

/-- The reply written for a list of well-formed records is parsed back into
that list. -/
theorem kclient_parse_records (sz : Sizes) (garbage : List Char) (tmp0 : session_status)
    (rs : List session_status) (hg : garbage.length = TMP_BUFF_LEN)
    (hwf : ∀ r ∈ rs, wellFormed sz r) (hnum : rs.length ≤ sz.MAX_SESS_NUM) :
    kclient_get_running_sessions sz garbage tmp0 (received (sessions_reply rs)) =
      .sessions rs := by
  rw [kclient_received]
  unfold sessions_reply
  obtain ⟨buf1, t1, hlen1, h1⟩ := parse_loop_records sz EORS_line rs (garbage.set 0 NUL) tmp0 []
    (by simpa using hg) hwf (by simpa using hnum)
  have hinit : parse_init garbage tmp0 = ⟨garbage.set 0 NUL, 0, SESS_FIELD_ID, tmp0, []⟩ := rfl
  rw [hinit, h1]
  have := parse_loop_EORS sz ⟨buf1, 0, SESS_FIELD_ID, t1, [] ++ rs⟩ [] hlen1 rfl
  simpa using this

/-- C1 (amended): for every list of at most `MAX_SESS_NUM` well-formed session
records, parsing the text made of one line
`id:conn_type:ip:port:req_num:err_num:uptime:permissions\n` per record followed
by the line `EORS\n` returns a list with `sess_num` equal to the number of
records and every session equal to the original, field for field. -/
theorem sessions_roundtrip (sz : Sizes) (garbage : List Char) (tmp0 : session_status)
    (rs : List session_status) (hg : garbage.length = TMP_BUFF_LEN)
    (hwf : ∀ r ∈ rs, wellFormed sz r) (hnum : rs.length ≤ sz.MAX_SESS_NUM) :
    kclient_get_running_sessions sz garbage tmp0 (received (sessions_reply rs)) =
      .sessions rs :=
  kclient_parse_records sz garbage tmp0 rs hg hwf hnum

/-- C1 as stated fails for a record whose `ip` holds the field delimiter: the
record `3, TCP, ::1, 51000, 10, 0, 42, rw` is written as the line
`3:TCP:::1:51000:10:0:42:rw` and parsed as `3, TCP, (empty ip), 0, 1, 51000,
10, rw`. -/
theorem sessions_roundtrip_fails_on_delimiter :
    kclient_get_running_sessions ⟨64, 16, 16⟩ (List.replicate 2048 'x')
        ⟨0, .TCP, [], 0, 0, 0, 0, []⟩
        (received (sessions_reply
          [⟨3, .TCP, [':', ':', '1'], 51000, 10, 0, 42, ['r', 'w']⟩])) =
      .sessions [⟨3, .TCP, [], 0, 1, 51000, 10, ['r', 'w']⟩] ∧
    kclient_get_running_sessions ⟨64, 16, 16⟩ (List.replicate 2048 'x')
        ⟨0, .TCP, [], 0, 0, 0, 0, []⟩
        (received (sessions_reply
          [⟨3, .TCP, [':', ':', '1'], 51000, 10, 0, 42, ['r', 'w']⟩])) ≠
      .sessions [⟨3, .TCP, [':', ':', '1'], 51000, 10, 0, 42, ['r', 'w']⟩] := by
  decide

/-- C1 (amended), at the reply `3:TCP:127.0.0.1:51000:10:0:42:rw\nEORS\n`. -/
theorem sessions_roundtrip_witness :
    kclient_get_running_sessions ⟨64, 16, 16⟩ (List.replicate 2048 'x')
        ⟨0, .TCP, [], 0, 0, 0, 0, []⟩
        (received (sessions_reply
          [⟨3, .TCP, ['1', '2', '7', '.', '0', '.', '0', '.', '1'], 51000, 10, 0, 42,
            ['r', 'w']⟩])) =
      .sessions
        [⟨3, .TCP, ['1', '2', '7', '.', '0', '.', '0', '.', '1'], 51000, 10, 0, 42,
          ['r', 'w']⟩] :=
  sessions_roundtrip ⟨64, 16, 16⟩ (List.replicate 2048 'x') ⟨0, .TCP, [], 0, 0, 0, 0, []⟩
    [⟨3, .TCP, ['1', '2', '7', '.', '0', '.', '0', '.', '1'], 51000, 10, 0, 42, ['r', 'w']⟩]
    (List.length_replicate 2048 'x') (by decide) (by decide)

/-! ### What the conditions on the records rule out -/

/-- The search for `EORS` reads stale bytes: in the line
`1:WEBSOCK:a:1:1:1:1:EOR` the last field `EOR` is followed in `tmp_buff` by the
`S` left by `WEBSOCK`, the record is taken for the terminator and lost. -/
theorem stale_bytes_end_the_list :
    kclient_get_running_sessions ⟨64, 16, 16⟩ (List.replicate 2048 'x')
        ⟨0, .TCP, [], 0, 0, 0, 0, []⟩
        (received (sessions_reply [⟨1, .WEBSOCK, ['a'], 1, 1, 1, 1, ['E', 'O', 'R']⟩])) =
      .sessions [] := by
  decide

/-- The search for `EORS` reads stale bytes of an earlier field: in the line
`1:TCP:xxRS:1:1:1:1:EO` the last field `EO` is followed in `tmp_buff` by the
bytes `RS` left by the ip field. -/
theorem stale_ip_bytes_end_the_list :
    kclient_get_running_sessions ⟨64, 16, 16⟩ (List.replicate 2048 'x')
        ⟨0, .TCP, [], 0, 0, 0, 0, []⟩
        (received (sessions_reply [⟨1, .TCP, ['x', 'x', 'R', 'S'], 1, 1, 1, 1, ['E', 'O']⟩])) =
      .sessions [] := by
  decide

/-- The search for `EORS` reads uninitialised bytes: when the last field is
longer than every field before it, the outcome depends on what `tmp_buff`
held on entry. -/
theorem uninitialised_bytes_end_the_list :
    kclient_get_running_sessions ⟨64, 16, 16⟩
        (List.replicate 8 'x' ++ ['E', 'O', 'R', 'S'] ++ List.replicate 2036 NUL)
        ⟨0, .TCP, [], 0, 0, 0, 0, []⟩
        (received (sessions_reply
          [⟨1, .TCP, ['a'], 1, 1, 1, 1, ['r', 'e', 'a', 'd', 'o', 'n', 'l', 'y']⟩])) =
      .sessions [] ∧
    kclient_get_running_sessions ⟨64, 16, 16⟩ (List.replicate 2048 NUL)
        ⟨0, .TCP, [], 0, 0, 0, 0, []⟩
        (received (sessions_reply
          [⟨1, .TCP, ['a'], 1, 1, 1, 1, ['r', 'e', 'a', 'd', 'o', 'n', 'l', 'y']⟩])) =
      .sessions [⟨1, .TCP, ['a'], 1, 1, 1, 1, ['r', 'e', 'a', 'd', 'o', 'n', 'l', 'y']⟩] := by
  decide

/-- C10: a record whose second field is not exactly one of `TCP`, `WEBSOCK`,
`UNIX` is rejected: after any well-formed records, a line that starts with a
first field, a delimiter, such a second field and a delimiter makes
`kclient_get_running_sessions` return `NULL`; and a well-formed record, whose
second field is one of the three strings, is parsed with the matching
`conn_type`. -/
theorem conn_type_checked (sz : Sizes) (garbage : List Char) (tmp0 : session_status)
    (rs : List session_status) (idf f2 rest : List Char) (r : session_status)
    (hg : garbage.length = TMP_BUFF_LEN)
    (hwf : ∀ x ∈ rs, wellFormed sz x) (hnum : rs.length ≤ sz.MAX_SESS_NUM)
    (hid : plainField idf) (hidlen : idf.length < TMP_BUFF_LEN)
    (hf2 : plainField f2) (hf2len : f2.length < TMP_BUFF_LEN)
    (hbad : f2 ≠ ['T', 'C', 'P'] ∧ f2 ≠ ['W', 'E', 'B', 'S', 'O', 'C', 'K'] ∧
      f2 ≠ ['U', 'N', 'I', 'X'])
    (hr : wellFormed sz r) (hone : 1 ≤ sz.MAX_SESS_NUM) :
    kclient_get_running_sessions sz garbage tmp0
        (received ((rs.map session_line).flatten ++ (idf ++ ':' :: (f2 ++ ':' :: rest)))) =
      .null ∧
    (kclient_get_running_sessions sz garbage tmp0 (received (sessions_reply [r])) =
        .sessions [r] ∧
      conn_type_str .TCP = ['T', 'C', 'P'] ∧
      conn_type_str .WEBSOCK = ['W', 'E', 'B', 'S', 'O', 'C', 'K'] ∧
      conn_type_str .UNIX = ['U', 'N', 'I', 'X']) := by
  constructor
  · rw [kclient_received]
    obtain ⟨buf1, t1, hlen1, h1⟩ := parse_loop_records sz (idf ++ ':' :: (f2 ++ ':' :: rest)) rs
      (garbage.set 0 NUL) tmp0 [] (by simpa using hg) hwf (by simpa using hnum)
    have hinit : parse_init garbage tmp0 = ⟨garbage.set 0 NUL, 0, SESS_FIELD_ID, tmp0, []⟩ := rfl
    rw [hinit, h1, parse_loop_colon sz buf1 idf _ _ t1 _ hid hlen1 hidlen]
    simp only [switch_field, SESS_FIELD_ID, if_true, colon_done]
    have hlen2 : ((idf ++ NUL :: List.drop (idf.length + 1) buf1).set 0 NUL).length
        = TMP_BUFF_LEN := by
      have := afterField_length buf1 idf (by omega)
      unfold afterField at this
      rw [this, hlen1]
    rw [parse_loop_colon sz _ f2 _ _ _ _ hf2 hlen2 hf2len]
    simp [switch_field, SESS_FIELD_ID, SESS_FIELD_CONN_TYPE, hbad.1, hbad.2.1, hbad.2.2]
  · exact ⟨kclient_parse_records sz garbage tmp0 [r] hg (by simpa using hr)
      (by simpa using hone), rfl, rfl, rfl⟩

/-- C10, at a concrete input: the second field `tcp` in lower case is
rejected, the record `3:WEBSOCK:10.0.0.1:51000:10:0:42:rw` is accepted. -/
theorem conn_type_checked_witness :
    kclient_get_running_sessions ⟨64, 16, 16⟩ (List.replicate 2048 'x')
        ⟨0, .TCP, [], 0, 0, 0, 0, []⟩
        (received ((([] : List session_status).map session_line).flatten ++
          (['3'] ++ ':' :: (['t', 'c', 'p'] ++ ':' :: ['a', ':', '\n'])))) = .null ∧
    (kclient_get_running_sessions ⟨64, 16, 16⟩ (List.replicate 2048 'x')
        ⟨0, .TCP, [], 0, 0, 0, 0, []⟩
        (received (sessions_reply
          [⟨3, .WEBSOCK, ['1', '0', '.', '0', '.', '0', '.', '1'], 51000, 10, 0, 42,
            ['r', 'w']⟩])) =
        .sessions
          [⟨3, .WEBSOCK, ['1', '0', '.', '0', '.', '0', '.', '1'], 51000, 10, 0, 42,
            ['r', 'w']⟩] ∧
      conn_type_str .TCP = ['T', 'C', 'P'] ∧
      conn_type_str .WEBSOCK = ['W', 'E', 'B', 'S', 'O', 'C', 'K'] ∧
      conn_type_str .UNIX = ['U', 'N', 'I', 'X']) :=
  conn_type_checked ⟨64, 16, 16⟩ (List.replicate 2048 'x') ⟨0, .TCP, [], 0, 0, 0, 0, []⟩
    [] ['3'] ['t', 'c', 'p'] ['a', ':', '\n']
    ⟨3, .WEBSOCK, ['1', '0', '.', '0', '.', '0', '.', '1'], 51000, 10, 0, 42, ['r', 'w']⟩
    (List.length_replicate 2048 'x') (by decide) (by decide) (by decide) (by decide)
    (by decide) (by decide) (by decide) (by decide) (by decide)

/-! ## Properties of the command parser -/

/-- The commands and retained bytes found so far are carried along unchanged
by the scan. -/
theorem scan_shift : ∀ (t l r : List Char) (cs : List Command),
    List.foldl scan_step ⟨l, r, cs⟩ t =
      ⟨(List.foldl scan_step ⟨l, [], []⟩ t).line,
       r ++ (List.foldl scan_step ⟨l, [], []⟩ t).remain,
       cs ++ (List.foldl scan_step ⟨l, [], []⟩ t).cmds⟩ := by
  intro t
  induction t with
  | nil => intro l r cs; simp
  | cons c t ih =>
    intro l r cs
    simp only [List.foldl_cons, scan_step]
    split_ifs with h1 h2
    · rw [ih [] r (cs ++ (parse_command l.dropLast).toList),
        ih [] [] ([] ++ (parse_command l.dropLast).toList)]
      simp
    · rw [ih [] (r ++ l) cs, ih [] ([] ++ l) []]
      simp
    · rw [ih (l ++ [c]) r cs]

/-- Bytes without newline only extend the current line. -/
theorem scan_plain : ∀ (t l r : List Char) (cs : List Command), '\n' ∉ t →
    List.foldl scan_step ⟨l, r, cs⟩ t = ⟨l ++ t, r, cs⟩ := by
  intro t
  induction t with
  | nil => intro l r cs _; simp
  | cons c t ih =>
    intro l r cs h
    have hc : c ≠ '\n' := fun e => h (by simp [e])
    have ht : '\n' ∉ t := fun e => h (by simp [e])
    simp only [List.foldl_cons, scan_step, hc, if_false]
    rw [ih (l ++ [c]) r cs ht]
    simp

theorem scan_line : ∀ (t : List Char) (st : ScanState),
    ((List.foldl scan_step st t).line.length ≤ st.line.length + t.length) ∧
    (∀ x ∈ (List.foldl scan_step st t).line, x ≠ '\n' → (x ∈ st.line ∨ x ∈ t)) ∧
    ('\n' ∉ st.line → '\n' ∉ (List.foldl scan_step st t).line) := by
  intro t
  induction t with
  | nil => intro st; exact ⟨by simp, fun x hx _ => Or.inl hx, fun h => h⟩
  | cons c t ih =>
    intro st
    obtain ⟨h1, h2, h3⟩ := ih (scan_step st c)
    simp only [List.foldl_cons, List.length_cons]
    have hl : (scan_step st c).line.length ≤ st.line.length + 1 := by
      unfold scan_step; split_ifs <;> simp
    have hm : ∀ x ∈ (scan_step st c).line, x ∈ st.line ∨ x = c := by
      intro x hx
      unfold scan_step at hx
      split_ifs at hx
      · simp at hx
      · simp at hx
      · simpa using hx
    have hn : '\n' ∉ st.line → '\n' ∉ (scan_step st c).line := by
      intro hst hx
      unfold scan_step at hx
      split_ifs at hx with hc
      · simp at hx
      · simp at hx
      · simp only [List.mem_append, List.mem_singleton] at hx
        rcases hx with hx | hx
        · exact hst hx
        · exact hc hx.symm
    refine ⟨by omega, ?_, fun hst => h3 (hn hst)⟩
    intro x hx hxn
    rcases h2 x hx hxn with h | h
    · rcases hm x h with h | h
      · exact Or.inl h
      · exact Or.inr (by simp [h])
    · exact Or.inr (by simp [h])

theorem scan_append (a b : List Char) (st : ScanState) :
    List.foldl scan_step st (a ++ b) = List.foldl scan_step (List.foldl scan_step st a) b :=
  List.foldl_append _ _ _ _

theorem scan_remain_nil (a b l : List Char)
    (h : (List.foldl scan_step ⟨l, [], []⟩ (a ++ b)).remain = []) :
    (List.foldl scan_step ⟨l, [], []⟩ a).remain = [] := by
  rw [scan_append] at h
  generalize List.foldl scan_step ⟨l, [], []⟩ a = st at h ⊢
  obtain ⟨l1, r1, c1⟩ := st
  rw [scan_shift] at h
  simp only [List.append_eq_nil] at h
  exact h.1

theorem parse_input_buffer_padded (text : List Char) (k : Nat) (hk : 0 < k)
    (hnul : NUL ∉ text) :
    parse_input_buffer (text ++ List.replicate k NUL) =
      ((List.foldl scan_step ⟨[], [], []⟩ text).cmds,
       (List.foldl scan_step ⟨[], [], []⟩ text).remain ++
         (List.foldl scan_step ⟨[], [], []⟩ text).line) := by
  obtain ⟨j, rfl⟩ : ∃ j, k = j + 1 := ⟨k - 1, by omega⟩
  unfold parse_input_buffer
  rw [List.replicate_succ, cstr_append_nul text _ hnul]


/-- Feeding non-empty reads shorter than `LEN`, of at most `2*LEN - 1` bytes
together with the remainder, yields the commands of a single scan of the
concatenated bytes, as long as the scan retains nothing. -/
theorem session_commands_scan (LEN : Nat) :
    ∀ (chunks : List (List Char)) (line0 : List Char),
      (∀ c ∈ chunks, c ≠ [] ∧ c.length < LEN ∧ NUL ∉ c) → NUL ∉ line0 → '\n' ∉ line0 →
      line0.length + chunks.flatten.length < 2 * LEN →
      (List.foldl scan_step ⟨line0, [], []⟩ chunks.flatten).remain = [] →
      session_commands LEN line0 (chunks.map ReadResult.data) =
        (List.foldl scan_step ⟨line0, [], []⟩ chunks.flatten).cmds := by
  intro chunks
  induction chunks with
  | nil => intro line0 _ _ _ _ _; simp [session_commands]
  | cons c cs ih =>
    intro line0 hch hnul hnl hlen hrem
    obtain ⟨hc0, hcl, hcn⟩ := hch c (by simp)
    simp only [List.flatten_cons, List.length_append] at hlen
    simp only [List.flatten_cons] at hrem
    have hr0 := cstr_of_no_nul line0 hnul
    have hrd := read_data_no_nul LEN line0 c (List.length_pos.mpr hc0) hcl hcn
      (by rw [hr0]; omega)
    rw [hr0] at hrd
    have htext : NUL ∉ line0 ++ c := by
      simp only [List.mem_append, not_or]; exact ⟨hnul, hcn⟩
    have hpar := parse_input_buffer_padded (line0 ++ c) (2 * LEN - (line0.length + c.length))
      (by omega) htext
    rw [scan_append, scan_plain line0 [] [] [] hnl, List.nil_append] at hpar
    have hrem1 := scan_remain_nil c cs.flatten line0 hrem
    obtain ⟨hl1, hl2, hl3⟩ := scan_line c ⟨line0, [], []⟩
    have hnul1 : NUL ∉ (List.foldl scan_step ⟨line0, [], []⟩ c).line := by
      intro hx
      rcases hl2 NUL hx (by decide) with h | h
      · exact hnul h
      · exact hcn h
    have hsplit : List.foldl scan_step ⟨line0, [], []⟩ (c ++ cs.flatten) =
        ⟨(List.foldl scan_step ⟨(List.foldl scan_step ⟨line0, [], []⟩ c).line, [], []⟩
            cs.flatten).line,
         (List.foldl scan_step ⟨line0, [], []⟩ c).remain ++
           (List.foldl scan_step ⟨(List.foldl scan_step ⟨line0, [], []⟩ c).line, [], []⟩
            cs.flatten).remain,
         (List.foldl scan_step ⟨line0, [], []⟩ c).cmds ++
           (List.foldl scan_step ⟨(List.foldl scan_step ⟨line0, [], []⟩ c).line, [], []⟩
            cs.flatten).cmds⟩ := by
      rw [scan_append]
      generalize List.foldl scan_step ⟨line0, [], []⟩ c = st
      obtain ⟨l1, r1, c1⟩ := st
      exact scan_shift cs.flatten l1 r1 c1
    have hrem2 : (List.foldl scan_step
        ⟨(List.foldl scan_step ⟨line0, [], []⟩ c).line, [], []⟩ cs.flatten).remain = [] := by
      rw [hsplit] at hrem
      simp only [List.append_eq_nil] at hrem
      exact hrem.2
    have hih := ih (List.foldl scan_step ⟨line0, [], []⟩ c).line
      (fun x hx => hch x (by simp [hx])) hnul1 (hl3 hnl)
      (by simp only at hl1; omega) hrem2
    simp only [List.map_cons, session_commands, hrd, if_true, hpar, hrem1, List.nil_append,
      List.flatten_cons]
    rw [hih, hsplit]

/-- The scan of a command stream yields the commands of its records and
retains nothing. -/
theorem scan_command_stream : ∀ (bodies : List (List Char)) (r : List Char)
    (cs : List Command), (∀ b ∈ bodies, '\n' ∉ b) →
    List.foldl scan_step ⟨[], r, cs⟩ (command_stream bodies) =
      ⟨[], r, cs ++ bodies.filterMap parse_command⟩ := by
  intro bodies
  induction bodies with
  | nil => intro r cs _; simp [command_stream]
  | cons b bs ih =>
    intro r cs hb
    have hb1 : '\n' ∉ b := hb b (by simp)
    have hstream : command_stream (b :: bs) = b ++ ('#' :: '\n' :: command_stream bs) := by
      simp [command_stream]
    have hhash : ('#' : Char) ≠ '\n' := by decide
    rw [hstream, scan_append, scan_plain b [] r cs hb1]
    have hlast : (b ++ ['#']).getLast? = some '#' := by simp
    simp only [List.foldl_cons, scan_step, hhash, if_false, if_true, List.nil_append,
      hlast, List.dropLast_concat]
    rw [ih r _ (fun x hx => hb x (by simp [hx]))]
    cases h : parse_command b <;> simp [List.filterMap_cons, h]


theorem length_le_flatten : ∀ (chunks : List (List Char)) (c : List Char), c ∈ chunks →
    c.length ≤ chunks.flatten.length := by
  intro chunks
  induction chunks with
  | nil => intro c h; simp at h
  | cons a t ih =>
    intro c h
    simp only [List.mem_cons] at h
    simp only [List.flatten_cons, List.length_append]
    rcases h with h | h
    · subst h; omega
    · have := ih c h; omega

theorem command_stream_no_nul (bodies : List (List Char)) (hb : ∀ b ∈ bodies, NUL ∉ b) :
    NUL ∉ command_stream bodies := by
  unfold command_stream
  simp only [List.mem_flatten, List.mem_map, not_exists, not_and]
  rintro l ⟨b, hbm, rfl⟩
  simp only [List.mem_append, List.mem_cons, List.mem_singleton, not_or]
  exact ⟨hb b hbm, by decide, by decide, by simp⟩

/-- Every split of a short command stream into non-empty reads yields the
commands of its records. -/
theorem session_commands_stream (LEN : Nat) (bodies chunks : List (List Char))
    (hb : ∀ b ∈ bodies, '\n' ∉ b ∧ NUL ∉ b) (hne : ∀ c ∈ chunks, c ≠ [])
    (hsplit : chunks.flatten = command_stream bodies)
    (hlen : (command_stream bodies).length < LEN) :
    session_commands LEN [] (chunks.map ReadResult.data) = bodies.filterMap parse_command := by
  have hnul := command_stream_no_nul bodies (fun b h => (hb b h).2)
  have hscan := scan_command_stream bodies [] [] (fun b h => (hb b h).1)
  rw [session_commands_scan LEN chunks []
    (fun c hc => ⟨hne c hc, by have := length_le_flatten chunks c hc; rw [hsplit] at this; omega,
      fun hx => hnul (by rw [← hsplit]; exact List.mem_flatten.mpr ⟨c, hc, hx⟩)⟩)
    (by simp) (by simp) (by rw [hsplit]; simp only [List.length_nil]; omega)
    (by rw [hsplit, hscan])]
  rw [hsplit, hscan]
  simp

/-- A read of 0 bytes ends the session without any command. -/
theorem session_commands_closed (LEN : Nat) (hLEN : 0 < LEN) (remain_str : List Char) :
    session_commands LEN remain_str [ReadResult.data []] = [] := by
  have h : (TCPSocketInterface.read_data LEN remain_str (ReadResult.data [])).1 = 1 := by
    rw [read_data_ret]
    have h2 : ¬ ((0 : Int) = LEN) := by omega
    simp [ReadResult.data, h2]
  simp [session_commands, h]

/-- A single read of exactly `KSERVER_READ_STR_LEN` bytes makes `read_data`
fail: no command is extracted, whatever the bytes. -/
theorem session_commands_full_read (LEN : Nat) (remain_str d : List Char)
    (hd : d.length = LEN) : session_commands LEN remain_str [ReadResult.data d] = [] := by
  have h : (TCPSocketInterface.read_data LEN remain_str (ReadResult.data d)).1 = -1 := by
    rw [read_data_ret]
    simp [ReadResult.data, hd]
  simp [session_commands, h]

/-- C2 (amended): for every command stream made of records `body#\n` whose
bodies hold no newline and no NUL byte, shorter than `KSERVER_READ_STR_LEN`
bytes, and every way of splitting it into non-empty reads, feeding the reads
one by one through `read_data` and `parse_input_buffer` yields the same
ordered sequence of commands as feeding the whole stream as a single chunk,
namely the commands of the records in order. -/
theorem chunk_invariance (LEN : Nat) (bodies chunks : List (List Char))
    (hb : ∀ b ∈ bodies, '\n' ∉ b ∧ NUL ∉ b) (hne : ∀ c ∈ chunks, c ≠ [])
    (hsplit : chunks.flatten = command_stream bodies)
    (hlen : (command_stream bodies).length < LEN) :
    session_commands LEN [] (chunks.map ReadResult.data) =
      session_commands LEN [] [ReadResult.data (command_stream bodies)] ∧
    session_commands LEN [] (chunks.map ReadResult.data) = bodies.filterMap parse_command := by
  have h1 := session_commands_stream LEN bodies chunks hb hne hsplit hlen
  refine ⟨?_, h1⟩
  rw [h1]
  by_cases hs : command_stream bodies = []
  · rw [hs, session_commands_closed LEN (by omega)]
    cases bodies with
    | nil => rfl
    | cons b bs => simp [command_stream] at hs
  · have := session_commands_stream LEN bodies [command_stream bodies] hb
      (by simpa using hs) (by simp) hlen
    simpa using this.symm

/-- C2 as stated fails when a read returns `KSERVER_READ_STR_LEN` bytes: with
`KSERVER_READ_STR_LEN = 8`, the stream `1|2|ab#\n` of eight bytes fed as a
single chunk makes `read_data` return -1 and yields no command, while the
same stream fed as the two reads `1|2|` and `ab#\n` yields the command
`1, 2, [ab]`. -/
theorem chunk_invariance_fails_on_full_read :
    session_commands 8 [] [ReadResult.data ['1', '|', '2', '|', 'a', 'b', '#', '\n']] = [] ∧
    session_commands 8 []
        [ReadResult.data ['1', '|', '2', '|'], ReadResult.data ['a', 'b', '#', '\n']] =
      [{ device := 1, operation := 2, args := [['a', 'b']] }] := by
  decide

/-- C2 (amended), at a concrete input: two records split into four reads,
one of them between the marker and the newline. -/
theorem chunk_invariance_witness :
    session_commands 64 []
        ([['1', '|', '2', '|', 'a'], ['b', '#'], ['\n', '3', '|'], ['4', '|', '#', '\n']].map
          ReadResult.data) =
      session_commands 64 []
        [ReadResult.data (command_stream [['1', '|', '2', '|', 'a', 'b'], ['3', '|', '4', '|']])] ∧
    session_commands 64 []
        ([['1', '|', '2', '|', 'a'], ['b', '#'], ['\n', '3', '|'], ['4', '|', '#', '\n']].map
          ReadResult.data) =
      [['1', '|', '2', '|', 'a', 'b'], ['3', '|', '4', '|']].filterMap parse_command :=
  chunk_invariance 64 [['1', '|', '2', '|', 'a', 'b'], ['3', '|', '4', '|']]
    [['1', '|', '2', '|', 'a'], ['b', '#'], ['\n', '3', '|'], ['4', '|', '#', '\n']]
    (by decide) (by decide) (by decide) (by decide)

/-! ## Properties of `SendCstr`, of the failed calls and of the session lookup -/

/-- The first bytes of an array that starts with a C string and its
terminator. -/
theorem take_cstr_succ (s rest : List Char) :
    (s ++ NUL :: rest).take (s.length + 1) = s ++ [NUL] := by
  rw [List.take_append_eq_append_take]
  simp

/-- Both `SendCstr` on a string whose length plus one fits an `int`. -/
theorem SendCstr_eq (s rest : List Char) (write_ret send_ret : Int) (hnul : NUL ∉ s)
    (hlen : s.length + 1 < 2 ^ 31) :
    TCPSocketInterface.SendCstr (s ++ NUL :: rest) write_ret =
      (if write_ret < 0 then -1 else (s.length + 1 : Int), s ++ [NUL]) ∧
    WebSocketInterface.SendCstr (s ++ NUL :: rest) send_ret =
      (if send_ret < 0 then -1 else (s.length + 1 : Int), s) := by
  have h32 : toInt32 ((s.length : Int) + 1) = (s.length : Int) + 1 := by
    unfold toInt32; omega
  have htake : (s ++ NUL :: rest).take ((s.length : Int) + 1).toNat = s ++ [NUL] := by
    have : ((s.length : Int) + 1).toNat = s.length + 1 := by omega
    rw [this, take_cstr_succ]
  constructor
  · unfold TCPSocketInterface.SendCstr
    simp only [cstr_append_nul s rest hnul, h32, htake]
    split_ifs <;> rfl
  · unfold WebSocketInterface.SendCstr
    simp only [cstr_append_nul s rest hnul, h32]
    split_ifs <;> rfl

/-- C12: for every null-terminated string `s` (of length below `2^31 - 1`),
`TCPSocketInterface::SendCstr` hands to `write` the `strlen(s)+1` bytes of `s`
with its terminating NUL and returns `strlen(s)+1` when the write does not
fail; on TCP and on WebSocket the value returned is `strlen(s)+1` on success
and -1 exactly when the underlying `write`/`send` reports an error. -/
theorem SendCstr_result (s rest : List Char) (write_ret send_ret : Int) (hnul : NUL ∉ s)
    (hlen : s.length + 1 < 2 ^ 31) :
    (TCPSocketInterface.SendCstr (s ++ NUL :: rest) write_ret).2 = s ++ [NUL] ∧
    (0 ≤ write_ret →
      (TCPSocketInterface.SendCstr (s ++ NUL :: rest) write_ret).1 = s.length + 1) ∧
    ((TCPSocketInterface.SendCstr (s ++ NUL :: rest) write_ret).1 = -1 ↔ write_ret < 0) ∧
    (WebSocketInterface.SendCstr (s ++ NUL :: rest) send_ret).2 = s ∧
    (0 ≤ send_ret →
      (WebSocketInterface.SendCstr (s ++ NUL :: rest) send_ret).1 = s.length + 1) ∧
    ((WebSocketInterface.SendCstr (s ++ NUL :: rest) send_ret).1 = -1 ↔ send_ret < 0) := by
  obtain ⟨h1, h2⟩ := SendCstr_eq s rest write_ret send_ret hnul hlen
  rw [h1, h2]
  refine ⟨rfl, ?_, ?_, rfl, ?_, ?_⟩
  · intro h; simp only; rw [if_neg (by omega)]
  · simp only; split_ifs with h
    · simp [h]
    · constructor
      · intro h'; omega
      · intro h'; contradiction
  · intro h; simp only; rw [if_neg (by omega)]
  · simp only; split_ifs with h
    · simp [h]
    · constructor
      · intro h'; omega
      · intro h'; contradiction

/-- C12, at a concrete input: the string `abc`, a successful write. -/
theorem SendCstr_result_witness :
    (TCPSocketInterface.SendCstr (['a', 'b', 'c'] ++ NUL :: ['z']) 4).2 = ['a', 'b', 'c'] ++ [NUL] ∧
    ((0 : Int) ≤ 4 →
      (TCPSocketInterface.SendCstr (['a', 'b', 'c'] ++ NUL :: ['z']) 4).1 =
        (['a', 'b', 'c'].length : Int) + 1) ∧
    ((TCPSocketInterface.SendCstr (['a', 'b', 'c'] ++ NUL :: ['z']) 4).1 = -1 ↔ (4 : Int) < 0) ∧
    (WebSocketInterface.SendCstr (['a', 'b', 'c'] ++ NUL :: ['z']) (-1)).2 = ['a', 'b', 'c'] ∧
    ((0 : Int) ≤ -1 →
      (WebSocketInterface.SendCstr (['a', 'b', 'c'] ++ NUL :: ['z']) (-1)).1 =
        (['a', 'b', 'c'].length : Int) + 1) ∧
    ((WebSocketInterface.SendCstr (['a', 'b', 'c'] ++ NUL :: ['z']) (-1)).1 = -1 ↔
      (-1 : Int) < 0) :=
  SendCstr_result ['a', 'b', 'c'] ['z'] 4 (-1) (by decide) (by decide)

/-- C13: when the request cannot be sent or the reply cannot be received,
`__get_sessions_data` returns -1 and `kclient_get_running_sessions` returns
`NULL`, no session list is produced; likewise `__get_session_perfs_data`
returns -1 and `kclient_get_session_perfs` returns `NULL`. -/
theorem failed_call_returns_null {F : Type} (sz : Sizes) (psz : PerfSizes)
    (strtof : List Char → F) (garbage : List Char) (tmp0 : session_status)
    (tp0 : timing_point F) (sid : Int) (call : SessionsCall)
    (h : call.send_ret < 0 ∨ call.rcv_ret < 0) :
    __get_sessions_data call = -1 ∧
    kclient_get_running_sessions sz garbage tmp0 call = .null ∧
    __get_session_perfs_data call = -1 ∧
    kclient_get_session_perfs psz strtof garbage tp0 sid call = .null := by
  have h1 : __get_sessions_data call = -1 := by
    unfold __get_sessions_data
    dsimp only
    split_ifs <;> first | rfl | omega
  have h2 : __get_session_perfs_data call = -1 := by
    unfold __get_session_perfs_data
    dsimp only
    split_ifs <;> first | rfl | omega
  refine ⟨h1, ?_, h2, ?_⟩
  · simp [kclient_get_running_sessions, h1]
  · simp [kclient_get_session_perfs, h2]

/-- C13, at a concrete input: the send fails. -/
theorem failed_call_returns_null_witness :
    __get_sessions_data ⟨-1, 0, [], true⟩ = -1 ∧
    kclient_get_running_sessions ⟨64, 16, 16⟩ (List.replicate 2048 NUL)
      ⟨0, .TCP, [], 0, 0, 0, 0, []⟩ ⟨-1, 0, [], true⟩ = .null ∧
    __get_session_perfs_data ⟨-1, 0, [], true⟩ = -1 ∧
    kclient_get_session_perfs ⟨32, 16⟩ (fun s => s) (List.replicate 2048 NUL)
      ⟨[], [], 0, 0⟩ 7 ⟨-1, 0, [], true⟩ = .null :=
  failed_call_returns_null ⟨64, 16, 16⟩ ⟨32, 16⟩ (fun s => s) (List.replicate 2048 NUL)
    ⟨0, .TCP, [], 0, 0, 0, 0, []⟩ ⟨[], [], 0, 0⟩ 7 ⟨-1, 0, [], true⟩ (by decide)

/-- The loop of `kclient_is_valid_sess_id` returns 1 exactly when an entry
carries the id, and 0 otherwise. -/
theorem is_valid_loop_spec : ∀ (l : List session_status) (sid : Int),
    (is_valid_loop l sid = 1 ↔ ∃ s ∈ l, s.sess_id = sid) ∧
    (is_valid_loop l sid = 1 ∨ is_valid_loop l sid = 0) := by
  intro l sid
  induction l with
  | nil => simp [is_valid_loop]
  | cons a t ih =>
    simp only [is_valid_loop]
    split_ifs with h
    · simp [h]
    · constructor
      · rw [ih.1]; simp [h]
      · exact ih.2

/-- C19: `kclient_is_valid_sess_id(sessions, sid)` returns 1 if and only if one
of the first `sess_num` entries of `sessions` has `sess_id` equal to `sid`,
and returns 0 otherwise, in particular for an empty list; the list is left
as it was. -/
theorem is_valid_sess_id_spec (sessions : running_sessions) (sid : Int)
    (l : List session_status) :
    ((kclient_is_valid_sess_id sessions sid).1 = 1 ↔
      ∃ s ∈ sessions.sessions.take sessions.sess_num.toNat, s.sess_id = sid) ∧
    ((kclient_is_valid_sess_id sessions sid).1 = 1 ∨
      (kclient_is_valid_sess_id sessions sid).1 = 0) ∧
    (kclient_is_valid_sess_id ⟨0, l⟩ sid).1 = 0 ∧
    (kclient_is_valid_sess_id sessions sid).2 = sessions := by
  refine ⟨(is_valid_loop_spec _ sid).1, (is_valid_loop_spec _ sid).2, ?_, rfl⟩
  simp [kclient_is_valid_sess_id, is_valid_loop]

/-- C20: `KDeviceAbstract::is_failed` returns a value for every tag: false for
`NO_DEVICE` and for every tag outside the device table other than `KSERVER`
(`device_num` among them), and for every tag of the table and for `KSERVER`
the result of `is_failed` of the concrete `KDevice` of that tag (the case
labels being distinct). -/
theorem is_failed_total (tb : DeviceTable) (concrete : Nat → Bool) (kind : Nat)
    (h1 : tb.NO_DEVICE ≠ tb.KSERVER) (h2 : tb.NO_DEVICE ∉ tb.devices) :
    KDeviceAbstract.is_failed tb concrete tb.NO_DEVICE = false ∧
    (kind ∉ tb.devices → kind ≠ tb.KSERVER →
      KDeviceAbstract.is_failed tb concrete kind = false) ∧
    (tb.device_num ∉ tb.devices → tb.device_num ≠ tb.KSERVER →
      KDeviceAbstract.is_failed tb concrete tb.device_num = false) ∧
    (kind ∈ tb.devices ∨ kind = tb.KSERVER →
      KDeviceAbstract.is_failed tb concrete kind = concrete kind) := by
  have hout : ∀ k, k ∉ tb.devices → k ≠ tb.KSERVER →
      KDeviceAbstract.is_failed tb concrete k = false := by
    intro k hk1 hk2
    unfold KDeviceAbstract.is_failed
    simp [hk1, hk2]
  refine ⟨by simp [KDeviceAbstract.is_failed], hout kind, hout tb.device_num, ?_⟩
  intro h
  unfold KDeviceAbstract.is_failed
  rcases h with h | h
  · have hne : kind ≠ tb.NO_DEVICE := fun e => h2 (e ▸ h)
    simp only [hne, if_false, h, if_true]
    split_ifs with hk
    · rw [hk]
    · rfl
  · subst h
    have hne : ¬ (tb.KSERVER = tb.NO_DEVICE) := fun e => h1 e.symm
    simp only [hne, if_false, if_true]

/-- C20, at a concrete table: tags 0 (`NO_DEVICE`), 1 (`KSERVER`), devices 2
and 3, `device_num = 4`; the object of tag 3 has failed. -/
theorem is_failed_total_witness :
    KDeviceAbstract.is_failed ⟨0, 1, 4, [2, 3]⟩ (fun k => decide (k = 3)) 0 = false ∧
    (3 ∉ [2, 3] → 3 ≠ 1 →
      KDeviceAbstract.is_failed ⟨0, 1, 4, [2, 3]⟩ (fun k => decide (k = 3)) 3 = false) ∧
    (4 ∉ [2, 3] → 4 ≠ 1 →
      KDeviceAbstract.is_failed ⟨0, 1, 4, [2, 3]⟩ (fun k => decide (k = 3)) 4 = false) ∧
    (3 ∈ [2, 3] ∨ 3 = 1 →
      KDeviceAbstract.is_failed ⟨0, 1, 4, [2, 3]⟩ (fun k => decide (k = 3)) 3 =
        (fun k => decide (k = 3)) 3) :=
  is_failed_total ⟨0, 1, 4, [2, 3]⟩ (fun k => decide (k = 3)) 3 (by decide) (by decide)

/-! ## Properties of the receive paths -/

/-- C14: a failed `read` (result -1) inside `RcvDataBuffer` is not reported:
with 4 bytes asked and reads of 2 bytes, -1, and 3 bytes the function
returns 4, success, having decremented its counter on the failed read and
written the third read over the byte `b` of the first. -/
theorem RcvDataBuffer_swallows_failed_read :
    TCPSocketInterface.RcvDataBuffer 16 4 (List.replicate 16 'x')
        [ReadResult.data ['a', 'b'], ⟨-1, []⟩, ReadResult.data ['c', 'd', 'e']] =
      .returned 4 4 (['a', 'c', 'd', 'e'] ++ List.replicate 12 'x') [] := by
  decide

/-- C15: `WebSocketInterface::read_data` leaves the remainder out: with the
remainder `1|2|` and the frame payload `3#` and a newline, the buffer holds
the payload only, while `TCPSocketInterface::read_data` on the same remainder
and the same bytes holds the remainder followed by the bytes. -/
theorem WebSocket_read_data_drops_remainder :
    WebSocketInterface.read_data 8 ['1', '|', '2', '|'] ⟨3, ['3', '#', '\n'], 0⟩ false =
      (0, ['3', '#', '\n'] ++ List.replicate 13 NUL) ∧
    TCPSocketInterface.read_data 8 ['1', '|', '2', '|'] (ReadResult.data ['3', '#', '\n']) =
      (0, ['1', '|', '2', '|', '3', '#', '\n'] ++ List.replicate 9 NUL) := by
  decide

/-- From a loop head where the counter is within the buffer, a run of
`RcvDataBuffer` that returns a value other than -1 has read exactly the bytes
asked, and these fit the buffer. -/
theorem RcvDataBuffer_loop_bounded (BUFF_LEN n : Nat) :
    ∀ (reads : List ReadResult) (bytes_read : Nat) (buff : List Char)
      (ret : Int) (br : Nat) (buff1 : List Char) (rest : List ReadResult),
      bytes_read ≤ BUFF_LEN →
      RcvDataBuffer_loop BUFF_LEN n bytes_read buff reads = .returned ret br buff1 rest →
      ret ≠ -1 → br = n ∧ br ≤ BUFF_LEN := by
  intro reads
  induction reads with
  | nil =>
    intro bytes_read buff ret br buff1 rest hb h hret
    unfold RcvDataBuffer_loop at h
    split_ifs at h with h1 h2
    · simp only [RcvOutcome.returned.injEq] at h
      obtain ⟨_, hbr, _, _⟩ := h
      omega
  | cons rd t ih =>
    intro bytes_read buff ret br buff1 rest hb h hret
    unfold RcvDataBuffer_loop at h
    dsimp only at h
    split_ifs at h with h1 h2 h3 h4 h5
    · simp only [RcvOutcome.returned.injEq] at h; omega
    · simp only [RcvOutcome.returned.injEq] at h; omega
    · simp only [RcvOutcome.returned.injEq] at h; omega
    · exact ih _ _ ret br buff1 rest (by omega) h hret
    · simp only [RcvOutcome.returned.injEq] at h
      obtain ⟨_, hbr, _, _⟩ := h
      omega

/-- What the test of the counter does give: in a run of `RcvDataBuffer` that
returns a non-negative value the count asked does not exceed
`KSERVER_RECV_DATA_BUFF_LEN`, and the byte count at the exit of the loop
equals the count asked; in every run, a byte count above
`KSERVER_RECV_DATA_BUFF_LEN` is met only at a return of -1. -/
theorem RcvDataBuffer_bounded (BUFF_LEN n_bytes : Nat) (recv_data_buff : List Char)
    (reads : List ReadResult) (ret : Int) (br : Nat) (buff1 : List Char)
    (rest : List ReadResult)
    (h : TCPSocketInterface.RcvDataBuffer BUFF_LEN n_bytes recv_data_buff reads =
      .returned ret br buff1 rest) :
    (0 ≤ ret → n_bytes ≤ BUFF_LEN ∧ br = n_bytes ∧ br ≤ BUFF_LEN) ∧
    (BUFF_LEN < br → ret = -1) := by
  have key := RcvDataBuffer_loop_bounded BUFF_LEN n_bytes reads 0 recv_data_buff ret br buff1
    rest (Nat.zero_le _) h
  constructor
  · intro hret
    have := key (by omega)
    omega
  · intro hbr
    by_contra hne
    have := key hne
    omega

/-- A run within the buffer: 4 bytes asked, received as 2 and 2. -/
theorem RcvDataBuffer_bounded_witness :
    TCPSocketInterface.RcvDataBuffer 16 4 (List.replicate 16 'x')
        [ReadResult.data ['a', 'b'], ReadResult.data ['c', 'd']] =
      .returned 4 4 (['a', 'b', 'c', 'd'] ++ List.replicate 12 'x') [] ∧
    (((0 : Int) ≤ 4 → 4 ≤ 16 ∧ 4 = 4 ∧ 4 ≤ 16) ∧ (16 < 4 → (4 : Int) = -1)) :=
  ⟨by decide,
   RcvDataBuffer_bounded 16 4 (List.replicate 16 'x')
     [ReadResult.data ['a', 'b'], ReadResult.data ['c', 'd']] 4 4
     (['a', 'b', 'c', 'd'] ++ List.replicate 12 'x') [] (by decide)⟩

/-- C16: `RcvDataBuffer` does not keep the byte count within
`KSERVER_RECV_DATA_BUFF_LEN`, its test of the counter comes after the read
has written: with a buffer of 16 bytes, 32 bytes asked and one read of 32
bytes, the loop is left with a byte count of 32 and with 32 bytes written
from the start of the 16-byte buffer, and -1 is returned only then. -/
theorem RcvDataBuffer_checks_after_write :
    TCPSocketInterface.RcvDataBuffer 16 32 (List.replicate 16 'x')
        [ReadResult.data (List.replicate 32 'a')] =
      .returned (-1) 32 (List.replicate 32 'a') [] := by
  decide

/-- C18: `WebSocketInterface::RcvHandshake(buff_size)` returns a non-null
pointer exactly when the send succeeded, the received payload size equals
`sizeof(uint32_t)*buff_size` and the copy of the payload succeeded; a failed
send, a failed receive, another payload size or a failed copy give
`nullptr` (`size_t` being 64 bits wide). -/
theorem WebSocket_RcvHandshake_size (buff_size : Nat) (hN : buff_size < 2 ^ 32)
    (send_ret : Int) (ws : WebSockCalls) (hrcv : ws.receive ≤ INT_MAX)
    (recv_data_buff : List Char) :
    ((WebSocketInterface.RcvHandshake buff_size send_ret ws recv_data_buff).ptr ≠ none ↔
      (0 ≤ send_ret ∧ ws.receive = 4 * buff_size ∧ 0 ≤ ws.get_payload)) ∧
    ((send_ret < 0 ∨ ws.receive < 0 ∨ ws.receive ≠ 4 * buff_size ∨ ws.get_payload < 0) →
      (WebSocketInterface.RcvHandshake buff_size send_ret ws recv_data_buff).ptr = none) := by
  unfold INT_MAX at hrcv
  unfold WebSocketInterface.RcvHandshake
  dsimp only
  constructor
  · split_ifs with h1 h2 h3 h4
    · simp only [ne_eq, not_true_eq_false, false_iff]; omega
    · simp only [ne_eq, not_true_eq_false, false_iff]; omega
    · simp only [ne_eq, not_true_eq_false, false_iff]; omega
    · simp only [ne_eq, not_true_eq_false, false_iff]; omega
    · simp only [ne_eq, reduceCtorEq, not_false_eq_true, true_iff]; omega
  · intro h
    split_ifs with h1 h2 h3 h4
    · rfl
    · rfl
    · rfl
    · rfl
    · exfalso; omega

/-- C18, at a concrete input: 2 words asked, a payload of 7 bytes. -/
theorem WebSocket_RcvHandshake_size_witness :
    ((WebSocketInterface.RcvHandshake 2 4 ⟨7, ['a'], 0⟩ []).ptr ≠ none ↔
      ((0 : Int) ≤ 4 ∧ (7 : Int) = 4 * (2 : Nat) ∧ (0 : Int) ≤ 0)) ∧
    (((4 : Int) < 0 ∨ (7 : Int) < 0 ∨ (7 : Int) ≠ 4 * (2 : Nat) ∨ (0 : Int) < 0) →
      (WebSocketInterface.RcvHandshake 2 4 ⟨7, ['a'], 0⟩ []).ptr = none) :=
  WebSocket_RcvHandshake_size 2 (by decide) 4 ⟨7, ['a'], 0⟩ (by decide) []

/-! ## Properties of the perf parser -/

/-- The branch of the newline of the perf loop, guard by guard. -/
theorem perf_on_newline_eq {F : Type} (psz : PerfSizes) (s : PerfState F) :
    perf_on_newline psz s =
      if strstr (cstr s.tmp_buff) ['E', 'O', 'S', 'P'] then .brk
      else if TMP_BUFF_LEN ≤ s.tmp_buff_cnt then .undefined
      else if psz.MAX_POINTS ≤ s.points.length then .undefined
      else .next
        { tmp_buff := (s.tmp_buff.set s.tmp_buff_cnt NUL).set 0 NUL, tmp_buff_cnt := 0,
          current_field := SESS_PERFS_TIMING_PT_NAME,
          tmp_timing_pt :=
            { s.tmp_timing_pt with
              max_duration := toInt32 (strtol (cstr (s.tmp_buff.set s.tmp_buff_cnt NUL))) },
          points := s.points ++
            [{ s.tmp_timing_pt with
              max_duration := toInt32 (strtol (cstr (s.tmp_buff.set s.tmp_buff_cnt NUL))) }] } := by
  unfold perf_on_newline __append_timing_pt
  dsimp only
  split_ifs <;> rfl

/-- At the start of a line, the line `EOSP` leaves the loop with the points
parsed so far. -/
theorem perf_loop_EOSP {F : Type} (psz : PerfSizes) (strtof : List Char → F) (sid : Int)
    (s : PerfState F) (post : List Char)
    (hlen : s.tmp_buff.length = TMP_BUFF_LEN) (hcnt : s.tmp_buff_cnt = 0) :
    perf_loop psz strtof sid s (EOSP_line ++ post) = .perfs sid s.points := by
  obtain ⟨buf, cnt, fld, t, l⟩ := s
  simp only at hlen hcnt
  subst hcnt
  match buf, hlen with
  | a :: b :: c :: d :: rest, _ =>
    simp [EOSP_line, perf_loop, perf_step, perf_on_other, perf_on_newline, TMP_BUFF_LEN, cstr,
      strstr, startsWith, NUL, List.takeWhile]

/-- The bytes of a field are stored one after the other from index
`tmp_buff_cnt`. -/
theorem perf_loop_write {F : Type} (psz : PerfSizes) (strtof : List Char → F) (sid : Int)
    (rest : List Char) :
    ∀ (f pre old post : List Char) (fld : Nat) (t : timing_point F) (l : List (timing_point F)),
      (∀ c ∈ f, c ≠ ':' ∧ c ≠ '\n') → old.length = f.length →
      pre.length + f.length ≤ TMP_BUFF_LEN →
      perf_loop psz strtof sid ⟨pre ++ old ++ post, pre.length, fld, t, l⟩ (f ++ rest) =
        perf_loop psz strtof sid ⟨pre ++ f ++ post, pre.length + f.length, fld, t, l⟩ rest := by
  intro f
  induction f with
  | nil =>
    intro pre old post fld t l _ hold _
    have : old = [] := List.length_eq_zero.mp (by simpa using hold)
    subst this
    simp
  | cons c f ih =>
    intro pre old post fld t l hf hold hlen
    obtain ⟨o, olds, rfl⟩ : ∃ o olds, old = o :: olds := by
      cases old with
      | nil => simp at hold
      | cons o olds => exact ⟨o, olds, rfl⟩
    have hc := hf c (by simp)
    have hcnt : ¬ TMP_BUFF_LEN ≤ pre.length := by
      simp only [List.length_cons] at hlen; omega
    have hset : (pre ++ o :: olds ++ post).set pre.length c = (pre ++ [c]) ++ olds ++ post := by
      rw [List.append_assoc, List.set_append_right _ _ (Nat.le_refl _)]
      simp
    have := ih (pre ++ [c]) olds post fld t l (fun x hx => hf x (by simp [hx]))
      (by simpa using hold) (by simp only [List.length_append, List.length_cons,
        List.length_nil] at hlen ⊢; omega)
    simp only [List.cons_append, perf_loop, perf_step, hc.1, hc.2, if_false, perf_on_other, hcnt,
      hset, List.append_eq]
    simp only [List.length_append, List.length_cons, List.length_nil, Nat.zero_add] at this
    rw [this]
    congr 2
    · simp
    · simp only [List.length_cons]; omega

/-- A field read from the start of `tmp_buff` overwrites its first bytes and
leaves the others as they were. -/
theorem perf_loop_field {F : Type} (psz : PerfSizes) (strtof : List Char → F) (sid : Int)
    (buf f rest : List Char) (fld : Nat) (t : timing_point F) (l : List (timing_point F))
    (hf : ∀ c ∈ f, c ≠ ':' ∧ c ≠ '\n') (hlen : buf.length = TMP_BUFF_LEN)
    (hfl : f.length < TMP_BUFF_LEN) :
    perf_loop psz strtof sid ⟨buf, 0, fld, t, l⟩ (f ++ rest) =
      perf_loop psz strtof sid ⟨f ++ buf.drop f.length, f.length, fld, t, l⟩ rest := by
  have h := perf_loop_write psz strtof sid rest f [] (buf.take f.length) (buf.drop f.length)
    fld t l hf (by simp [hlen]; omega) (by simp; omega)
  simpa using h

/-- A field followed by the delimiter: the switch sees the field as the C
string of `tmp_buff`. -/
theorem perf_loop_colon {F : Type} (psz : PerfSizes) (strtof : List Char → F) (sid : Int)
    (buf f rest : List Char) (fld : Nat) (t : timing_point F) (l : List (timing_point F))
    (hf : plainField f) (hlen : buf.length = TMP_BUFF_LEN) (hfl : f.length < TMP_BUFF_LEN) :
    perf_loop psz strtof sid ⟨buf, 0, fld, t, l⟩ (f ++ ':' :: rest) =
      match perf_switch_field psz strtof ⟨buf, 0, fld, t, l⟩
          (f ++ NUL :: buf.drop (f.length + 1)) f with
      | .next s1 => perf_loop psz strtof sid s1 rest
      | .brk => .perfs sid l
      | .undefined => .undefined := by
  have hnul : NUL ∉ f := fun h => (hf NUL h).2.2 rfl
  rw [perf_loop_field psz strtof sid buf f _ fld t l (fun c hc => ⟨(hf c hc).1, (hf c hc).2.1⟩)
    hlen hfl]
  have hg : ¬ TMP_BUFF_LEN ≤ f.length := by omega
  simp only [perf_loop, perf_step, if_true, perf_on_colon, hg, if_false]
  rw [set_after_field buf f (by omega), cstr_append_nul f _ hnul]
  rfl

/-! ### The search for `EOSP` and the stale bytes of `tmp_buff` -/

theorem strstr_tail_false (a : Char) (t n : List Char) (h : strstr (a :: t) n = false) :
    strstr t n = false := by
  simp only [strstr, Bool.or_eq_false_iff] at h
  exact h.2

/-- A text that does not occur in `l` does not occur in an end of `l`. -/
theorem strstr_drop_false (n : List Char) : ∀ (k : Nat) (l : List Char),
    strstr l n = false → strstr (l.drop k) n = false := by
  intro k
  induction k with
  | zero => intro l h; simpa using h
  | succ k ih =>
    intro l h
    cases l with
    | nil => simpa using h
    | cons a t =>
      rw [List.drop_succ_cons]
      exact ih t (strstr_tail_false a t n h)

/-- The C string of an array that starts with bytes other than NUL. -/
theorem cstr_append_left (a b : List Char) (h : NUL ∉ a) : cstr (a ++ b) = a ++ cstr b := by
  unfold cstr
  apply List.takeWhile_append_of_pos
  intro c hc
  have : c ≠ NUL := fun e => h (e ▸ hc)
  simpa using this

/-- Bytes other than `E` put before a text do not make `EOSP` occur. -/
theorem strstr_append_no_E : ∀ (a t : List Char), 'E' ∉ a →
    strstr t ['E', 'O', 'S', 'P'] = false → strstr (a ++ t) ['E', 'O', 'S', 'P'] = false := by
  intro a
  induction a with
  | nil => intro t _ h; simpa using h
  | cons c a ih =>
    intro t hE h
    have hc : c ≠ 'E' := fun e => hE (by simp [e])
    have hrest := ih t (fun hm => hE (by simp [hm])) h
    simp only [List.cons_append, strstr, startsWith, Bool.or_eq_false_iff, Bool.and_eq_false_imp,
      beq_iff_eq]
    refine ⟨?_, hrest⟩
    intro e
    exact absurd e.symm hc

/-- Read from an index within the field just stored, `tmp_buff` does not
contain `EOSP`. -/
theorem afterField_drop_low (buf f : List Char) (hnul : NUL ∉ f) (hE : noEOSP f)
    (L : Nat) (hL : L ≤ f.length) :
    strstr (cstr ((afterField buf f).drop L)) ['E', 'O', 'S', 'P'] = false := by
  cases L with
  | zero =>
    have h0 := cstr_length_le_of_nul _ 0 (afterField_zero buf f)
    have : cstr (afterField buf f) = [] := List.length_eq_zero.mp (by omega)
    rw [List.drop_zero, this]
    rfl
  | succ k =>
    unfold afterField
    rw [List.drop_set_of_lt _ _ (Nat.succ_pos k), List.drop_append_of_le_length hL,
      cstr_append_nul _ _ (fun hm => hnul (List.mem_of_mem_drop hm))]
    exact strstr_drop_false _ _ f hE

/-- Behind the field just stored and its terminator, `tmp_buff` is as it
was. -/
theorem afterField_drop_high (buf f : List Char) (L : Nat) (hL : f.length < L) :
    (afterField buf f).drop L = buf.drop L := by
  apply List.ext_getElem?
  intro i
  rw [List.getElem?_drop, List.getElem?_drop, afterField_getElem? buf f (L + i) (by omega),
    if_neg (by omega), if_neg (by omega)]

theorem perfBarrier_fresh (buf f : List Char) (hnul : NUL ∉ f) (hE : noEOSP f) :
    perfBarrier (afterField buf f) f.length := by
  constructor
  · by_cases h0 : f.length = 0
    · rw [h0]; exact afterField_zero buf f
    · rw [afterField_getElem? buf f f.length h0]
      simp
  · intro L hL
    exact afterField_drop_low buf f hnul hE L hL

theorem perfBarrier_keep (buf f : List Char) (hi : Nat) (hb : perfBarrier buf hi)
    (hnul : NUL ∉ f) (hE : noEOSP f) (hlt : f.length < hi) :
    perfBarrier (afterField buf f) hi := by
  constructor
  · rw [afterField_getElem? buf f hi (by omega), if_neg (by omega), if_neg (by omega)]
    exact hb.1
  · intro L hL
    by_cases hLf : L ≤ f.length
    · exact afterField_drop_low buf f hnul hE L hLf
    · rw [afterField_drop_high buf f L (by omega)]
      exact hb.2 L hL

/-- Processing one more field keeps a NUL byte at or behind the end of the
longest field seen, with no `EOSP` to be read before it. -/
theorem perfBarrier_grow (buf f : List Char) (hi : Nat) (hb : perfBarrier buf hi)
    (hnul : NUL ∉ f) (hE : noEOSP f) :
    ∃ hi1, hi ≤ hi1 ∧ f.length ≤ hi1 ∧ perfBarrier (afterField buf f) hi1 := by
  by_cases hlt : f.length < hi
  · exact ⟨hi, Nat.le_refl _, by omega, perfBarrier_keep buf f hi hb hnul hE hlt⟩
  · exact ⟨f.length, by omega, Nat.le_refl _, perfBarrier_fresh buf f hnul hE⟩

/-- When the stale bytes behind the current field are cut by a NUL byte with
no `EOSP` to be read before it, and the field holds no `E`, the search for
`EOSP` fails. -/
theorem no_EOSP_below_barrier (buf f : List Char) (hi : Nat) (hb : perfBarrier buf hi)
    (hhi : f.length ≤ hi) (hnul : NUL ∉ f) (hE : 'E' ∉ f) :
    strstr (cstr (f ++ buf.drop f.length)) ['E', 'O', 'S', 'P'] = false := by
  rw [cstr_append_left f _ hnul]
  exact strstr_append_no_E f _ hE (hb.2 f.length hhi)

/-- A last field followed by the newline: the search for `EOSP` fails, the
field is read as `max_duration` and the timing point is appended. -/
theorem perf_loop_newline {F : Type} (psz : PerfSizes) (strtof : List Char → F) (sid : Int)
    (buf f rest : List Char) (fld : Nat) (t : timing_point F) (l : List (timing_point F))
    (hi : Nat) (hf : plainField f) (hlen : buf.length = TMP_BUFF_LEN)
    (hfl : f.length < TMP_BUFF_LEN) (hb : perfBarrier buf hi) (hhi : f.length ≤ hi)
    (hE : 'E' ∉ f) (hmax : l.length < psz.MAX_POINTS) :
    perf_loop psz strtof sid ⟨buf, 0, fld, t, l⟩ (f ++ '\n' :: rest) =
      perf_loop psz strtof sid ⟨afterField buf f, 0, SESS_PERFS_TIMING_PT_NAME,
        { t with max_duration := toInt32 (strtol f) },
        l ++ [{ t with max_duration := toInt32 (strtol f) }]⟩ rest := by
  have hnul : NUL ∉ f := fun h => (hf NUL h).2.2 rfl
  rw [perf_loop_field psz strtof sid buf f _ fld t l
    (fun c hc => ⟨(hf c hc).1, (hf c hc).2.1⟩) hlen hfl]
  have hne : ('\n' : Char) ≠ ':' := by decide
  simp only [perf_loop, perf_step, hne, if_false, if_true, perf_on_newline_eq]
  have h1 := no_EOSP_below_barrier buf f hi hb hhi hnul hE
  have h2 : ¬ TMP_BUFF_LEN ≤ f.length := by omega
  simp only [h1, Bool.false_eq_true, if_false, h2]
  rw [set_after_field buf f (by omega), cstr_append_nul f _ hnul]
  have h4 : ¬ psz.MAX_POINTS ≤ l.length := by omega
  simp only [h4, if_false]
  rfl

/-! ### The fields of a line of the perf reply -/

theorem decimal_no_E (i : Int) : 'E' ∉ decimal i := by
  intro h
  rcases decimal_chars i 'E' h with h1 | h1
  · revert h1; decide
  · revert h1; decide

theorem decimal_noEOSP (i : Int) : noEOSP (decimal i) := by
  have := strstr_append_no_E (decimal i) [] (decimal_no_E i) rfl
  simpa [noEOSP] using this

theorem decimal_no_nul (i : Int) : NUL ∉ decimal i :=
  fun h => (decimal_plainField i NUL h).2.2 rfl

theorem perf_step_name {F : Type} (psz : PerfSizes) (strtof : List Char → F) (sid : Int)
    (buf rest : List Char) (t : timing_point F) (l : List (timing_point F))
    (name : List Char) (hlen : buf.length = TMP_BUFF_LEN) (hn : plainField name)
    (hsz : name.length < psz.NAME_LEN) (hbuf : name.length < TMP_BUFF_LEN) :
    perf_loop psz strtof sid ⟨buf, 0, SESS_PERFS_TIMING_PT_NAME, t, l⟩ (name ++ ':' :: rest) =
      perf_loop psz strtof sid ⟨afterField buf name, 0, SESS_PERFS_MEAN,
        { t with name := name }, l⟩ rest := by
  rw [perf_loop_colon psz strtof sid buf _ rest _ t l hn hlen hbuf]
  have h : ¬ psz.NAME_LEN ≤ name.length := by omega
  simp [perf_switch_field, SESS_PERFS_TIMING_PT_NAME, SESS_PERFS_MEAN, perf_colon_done,
    afterField, h]

theorem perf_step_mean {F : Type} (psz : PerfSizes) (strtof : List Char → F) (sid : Int)
    (buf rest : List Char) (t : timing_point F) (l : List (timing_point F))
    (mean : List Char) (hlen : buf.length = TMP_BUFF_LEN) (hm : plainField mean)
    (hbuf : mean.length < TMP_BUFF_LEN) :
    perf_loop psz strtof sid ⟨buf, 0, SESS_PERFS_MEAN, t, l⟩ (mean ++ ':' :: rest) =
      perf_loop psz strtof sid ⟨afterField buf mean, 0, SESS_PERFS_MIN,
        { t with mean_duration := strtof mean }, l⟩ rest := by
  rw [perf_loop_colon psz strtof sid buf _ rest _ t l hm hlen hbuf]
  simp [perf_switch_field, SESS_PERFS_TIMING_PT_NAME, SESS_PERFS_MEAN, SESS_PERFS_MIN,
    perf_colon_done, afterField]

theorem perf_step_min {F : Type} (psz : PerfSizes) (strtof : List Char → F) (sid : Int)
    (buf rest : List Char) (t : timing_point F) (l : List (timing_point F))
    (i : Int) (hlen : buf.length = TMP_BUFF_LEN) (hi : fitsInt i) :
    perf_loop psz strtof sid ⟨buf, 0, SESS_PERFS_MIN, t, l⟩ (decimal i ++ ':' :: rest) =
      perf_loop psz strtof sid ⟨afterField buf (decimal i), 0, SESS_PERFS_MAX,
        { t with min_duration := i }, l⟩ rest := by
  rw [perf_loop_colon psz strtof sid buf _ rest _ t l (decimal_plainField i) hlen
    (decimal_length i (fitsLong_of_fitsInt i hi))]
  simp [perf_switch_field, SESS_PERFS_TIMING_PT_NAME, SESS_PERFS_MEAN, SESS_PERFS_MIN,
    SESS_PERFS_MAX, perf_colon_done, afterField,
    strtol_decimal i (fitsLong_of_fitsInt i hi), toInt32_of_fitsInt i hi]

/-- The line of a well-formed timing point, read from the start of a line,
appends exactly that point. -/
theorem perf_loop_line {F : Type} (psz : PerfSizes) (strtof : List Char → F) (sid : Int)
    (p : perf_line) (hp : perfWellFormed psz p)
    (buf : List Char) (hlen : buf.length = TMP_BUFF_LEN) (t0 : timing_point F)
    (l : List (timing_point F)) (hmax : l.length < psz.MAX_POINTS) (rest : List Char) :
    ∃ buf1, buf1.length = TMP_BUFF_LEN ∧
      perf_loop psz strtof sid ⟨buf, 0, SESS_PERFS_TIMING_PT_NAME, t0, l⟩
          (perf_line_text p ++ rest) =
        perf_loop psz strtof sid ⟨buf1, 0, SESS_PERFS_TIMING_PT_NAME, p.point strtof,
          l ++ [p.point strtof]⟩ rest := by
  obtain ⟨h_min, h_max, h_n, h_nlen, h_nbuf, h_nE, h_m, h_mbuf, h_mE, h_hi⟩ := hp
  obtain ⟨name, mean, mn, mx⟩ := p
  simp only at h_min h_max h_n h_nlen h_nbuf h_nE h_m h_mbuf h_mE h_hi
  have hnnul : NUL ∉ name := fun h => (h_n NUL h).2.2 rfl
  have hmnul : NUL ∉ mean := fun h => (h_m NUL h).2.2 rfl
  have hl1 := afterField_length buf name (by rw [hlen]; exact h_nbuf)
  rw [hlen] at hl1
  have hb1 := perfBarrier_fresh buf name hnnul h_nE
  have hl2 := afterField_length (afterField buf name) mean (by rw [hl1]; exact h_mbuf)
  rw [hl1] at hl2
  obtain ⟨hi2, h12, hc2, hb2⟩ := perfBarrier_grow _ mean _ hb1 hmnul h_mE
  have hl3 := afterField_length (afterField (afterField buf name) mean) (decimal mn)
    (by rw [hl2]; exact decimal_length mn (fitsLong_of_fitsInt mn h_min))
  rw [hl2] at hl3
  obtain ⟨hi3, h23, hc3, hb3⟩ := perfBarrier_grow _ (decimal mn) _ hb2 (decimal_no_nul mn)
    (decimal_noEOSP mn)
  have hmxbuf := decimal_length mx (fitsLong_of_fitsInt mx h_max)
  have hl4 := afterField_length _ (decimal mx) (by rw [hl3]; exact hmxbuf)
  rw [hl3] at hl4
  refine ⟨_, hl4, ?_⟩
  unfold perf_line_text
  simp only [List.append_assoc, List.cons_append, List.nil_append]
  rw [perf_step_name psz strtof sid buf _ t0 l name hlen h_n h_nlen h_nbuf,
    perf_step_mean psz strtof sid _ _ _ l mean hl1 h_m h_mbuf,
    perf_step_min psz strtof sid _ _ _ l mn hl2 h_min,
    perf_loop_newline psz strtof sid _ (decimal mx) rest _ _ l hi3 (decimal_plainField mx) hl3
      hmxbuf hb3 (by omega) (decimal_no_E mx) hmax,
    strtol_decimal mx (fitsLong_of_fitsInt mx h_max), toInt32_of_fitsInt mx h_max]
  rfl

/-- The lines of well-formed timing points append exactly these points, in
order. -/
theorem perf_loop_lines {F : Type} (psz : PerfSizes) (strtof : List Char → F) (sid : Int)
    (rest : List Char) :
    ∀ (ps : List perf_line) (buf : List Char) (t0 : timing_point F)
      (l : List (timing_point F)), buf.length = TMP_BUFF_LEN →
      (∀ p ∈ ps, perfWellFormed psz p) → l.length + ps.length ≤ psz.MAX_POINTS →
      ∃ buf1 t1, buf1.length = TMP_BUFF_LEN ∧
        perf_loop psz strtof sid ⟨buf, 0, SESS_PERFS_TIMING_PT_NAME, t0, l⟩
            ((ps.map perf_line_text).flatten ++ rest) =
          perf_loop psz strtof sid ⟨buf1, 0, SESS_PERFS_TIMING_PT_NAME, t1,
            l ++ ps.map (perf_line.point strtof)⟩ rest := by
  intro ps
  induction ps with
  | nil =>
    intro buf t0 l hlen _ _
    exact ⟨buf, t0, hlen, by simp⟩
  | cons p ps ih =>
    intro buf t0 l hlen hwf hnum
    simp only [List.length_cons] at hnum
    obtain ⟨buf1, hlen1, h1⟩ := perf_loop_line psz strtof sid p (hwf p (by simp)) buf hlen t0 l
      (by omega) ((ps.map perf_line_text).flatten ++ rest)
    have hnum1 : (l ++ [p.point strtof]).length + ps.length ≤ psz.MAX_POINTS := by
      simp only [List.length_append, List.length_singleton]
      omega
    obtain ⟨buf2, t2, hlen2, h2⟩ := ih buf1 (p.point strtof) (l ++ [p.point strtof]) hlen1
      (fun x hx => hwf x (by simp [hx])) hnum1
    refine ⟨buf2, t2, hlen2, ?_⟩
    simp only [List.map_cons, List.flatten_cons, List.append_assoc]
    rw [h1, h2]
    simp

/-- Once the reply text is received in full, `kclient_get_session_perfs` is
the parsing loop run on that text. -/
theorem kclient_perfs_received {F : Type} (psz : PerfSizes) (strtof : List Char → F)
    (garbage : List Char) (tmp0 : timing_point F) (sid : Int) (text : List Char) :
    kclient_get_session_perfs psz strtof garbage tmp0 sid (received text) =
      perf_loop psz strtof sid (perf_init garbage tmp0) text := by
  have h1 : ¬ ((text.length : Int) < 0) := by omega
  simp [kclient_get_session_perfs, __get_session_perfs_data, received, h1]

/-- The reply written for a list of well-formed timing points is parsed back
into that list. -/
theorem kclient_parse_lines {F : Type} (psz : PerfSizes) (strtof : List Char → F)
    (garbage : List Char) (tmp0 : timing_point F) (sid : Int) (ps : List perf_line)
    (hg : garbage.length = TMP_BUFF_LEN) (hwf : ∀ p ∈ ps, perfWellFormed psz p)
    (hnum : ps.length ≤ psz.MAX_POINTS) :
    kclient_get_session_perfs psz strtof garbage tmp0 sid (received (perfs_reply ps)) =
      .perfs sid (ps.map (perf_line.point strtof)) := by
  rw [kclient_perfs_received]
  unfold perfs_reply
  obtain ⟨buf1, t1, hlen1, h1⟩ := perf_loop_lines psz strtof sid EOSP_line ps
    (garbage.set 0 NUL) tmp0 [] (by simpa using hg) hwf (by simpa using hnum)
  have hinit : perf_init garbage tmp0 =
      ⟨garbage.set 0 NUL, 0, SESS_PERFS_TIMING_PT_NAME, tmp0, []⟩ := rfl
  rw [hinit, h1]
  have := perf_loop_EOSP psz strtof sid
    ⟨buf1, 0, SESS_PERFS_TIMING_PT_NAME, t1, [] ++ ps.map (perf_line.point strtof)⟩ []
    hlen1 rfl
  simpa using this

/-- C11 (amended): for every list of at most `MAX_POINTS` well-formed timing
points, parsing the reply made of one line `name:mean:min:max\n` per point
followed by the line `EOSP\n` returns a `session_perfs` with `sess_id` equal to
the requested `sid`, `timing_points_num` equal to the number of lines, and
the i-th point carrying the name, the mean read by `strtof`, the minimum and
the maximum of the i-th line, in order. -/
theorem perfs_roundtrip {F : Type} (psz : PerfSizes) (strtof : List Char → F)
    (garbage : List Char) (tmp0 : timing_point F) (sid : Int) (ps : List perf_line)
    (hg : garbage.length = TMP_BUFF_LEN) (hwf : ∀ p ∈ ps, perfWellFormed psz p)
    (hnum : ps.length ≤ psz.MAX_POINTS) :
    kclient_get_session_perfs psz strtof garbage tmp0 sid (received (perfs_reply ps)) =
      .perfs sid (ps.map (perf_line.point strtof)) :=
  kclient_parse_lines psz strtof garbage tmp0 sid ps hg hwf hnum

/-- C11 as stated fails for a maximum that does not fit an `int`: the reply
`t:1.5:2:4294967296\nEOSP\n` is parsed into a point whose `max_duration` is 0. -/
theorem perfs_roundtrip_fails_on_overflow :
    kclient_get_session_perfs ⟨32, 16⟩ (fun s => s) (List.replicate 2048 NUL)
        ⟨[], [], 0, 0⟩ 7
        (received (perfs_reply [⟨['t'], ['1', '.', '5'], 2, 4294967296⟩])) =
      .perfs 7 [⟨['t'], ['1', '.', '5'], 2, 0⟩] ∧
    kclient_get_session_perfs ⟨32, 16⟩ (fun s => s) (List.replicate 2048 NUL)
        ⟨[], [], 0, 0⟩ 7
        (received (perfs_reply [⟨['t'], ['1', '.', '5'], 2, 4294967296⟩])) ≠
      .perfs 7 [⟨['t'], ['1', '.', '5'], 2, 4294967296⟩] := by
  decide

/-- C11 (amended), at the reply `exec:1.5:2:30\nsend:0.25:1:4\nEOSP\n`. -/
theorem perfs_roundtrip_witness :
    kclient_get_session_perfs ⟨32, 16⟩ (fun s => s) (List.replicate 2048 'x')
        ⟨[], [], 0, 0⟩ 7
        (received (perfs_reply
          [⟨['e', 'x', 'e', 'c'], ['1', '.', '5'], 2, 30⟩,
           ⟨['s', 'e', 'n', 'd'], ['0', '.', '2', '5'], 1, 4⟩])) =
      .perfs 7
        [⟨['e', 'x', 'e', 'c'], ['1', '.', '5'], 2, 30⟩,
         ⟨['s', 'e', 'n', 'd'], ['0', '.', '2', '5'], 1, 4⟩] :=
  perfs_roundtrip ⟨32, 16⟩ (fun s => s) (List.replicate 2048 'x') ⟨[], [], 0, 0⟩ 7
    [⟨['e', 'x', 'e', 'c'], ['1', '.', '5'], 2, 30⟩,
     ⟨['s', 'e', 'n', 'd'], ['0', '.', '2', '5'], 1, 4⟩]
    (List.length_replicate 2048 'x') (by decide) (by decide)

/-! ### What the conditions on the lines rule out -/

/-- The search for `EOSP` reads stale bytes: in the line `xxEOSP:1:2:34` the
last field `34` is followed in `tmp_buff` by the bytes `EOSP` left by the
name, the line is taken for the terminator and lost. -/
theorem stale_name_bytes_end_the_perfs :
    kclient_get_session_perfs ⟨32, 16⟩ (fun s => s) (List.replicate 2048 NUL)
        ⟨[], [], 0, 0⟩ 7
        (received (perfs_reply [⟨['x', 'x', 'E', 'O', 'S', 'P'], ['1'], 2, 34⟩])) =
      .perfs 7 [] := by
  decide

/-- The search for `EOSP` reads uninitialised bytes: when the last field is
longer than every field before it, the outcome depends on what `tmp_buff`
held on entry. -/
theorem uninitialised_bytes_end_the_perfs :
    kclient_get_session_perfs ⟨32, 16⟩ (fun s => s)
        (List.replicate 3 'x' ++ ['E', 'O', 'S', 'P'] ++ List.replicate 2041 NUL)
        ⟨[], [], 0, 0⟩ 7
        (received (perfs_reply [⟨['t'], ['1'], 2, 345⟩])) =
      .perfs 7 [] ∧
    kclient_get_session_perfs ⟨32, 16⟩ (fun s => s) (List.replicate 2048 NUL)
        ⟨[], [], 0, 0⟩ 7
        (received (perfs_reply [⟨['t'], ['1'], 2, 345⟩])) =
      .perfs 7 [⟨['t'], ['1'], 2, 345⟩] := by
  decide

/-! ## Properties of `KDeviceAbstract::cast` -/

/-- C21: `KDeviceAbstract::cast<Dev, dev_kind>` is a checked downcast: it
returns `NULL` if and only if `Dev::__kind` differs from the kind tag of the
object, otherwise it returns the address of the same object with the static
type `KDevice<Dev, dev_kind>`, and in both cases the object, its kind tag
included, is left as it was. -/
theorem cast_checked (Dev : DevClass) (dev_kind : Nat) (obj : KDeviceAbstract) :
    ((KDeviceAbstract.cast Dev dev_kind obj).1 = none ↔ Dev.__kind ≠ obj.kind) ∧
    (Dev.__kind = obj.kind →
      (KDeviceAbstract.cast Dev dev_kind obj).1 =
        some { Dev := Dev, dev_kind := dev_kind, addr := obj.addr }) ∧
    (KDeviceAbstract.cast Dev dev_kind obj).2 = obj ∧
    (KDeviceAbstract.cast Dev dev_kind obj).2.kind = obj.kind := by
  unfold KDeviceAbstract.cast
  by_cases h : Dev.__kind = obj.kind
  · simp [h]
  · simp [h]

/-- C21, at a concrete input: a class of kind 3, an object of kind 3 at
address 4096. -/
theorem cast_checked_witness :
    (KDeviceAbstract.cast ⟨5, 3⟩ 3 ⟨4096, 3⟩).1 = some ⟨⟨5, 3⟩, 3, 4096⟩ :=
  (cast_checked ⟨5, 3⟩ 3 ⟨4096, 3⟩).2.1 (by decide)

/-- The test of `cast` reads `Dev::__kind` only: the template argument
`dev_kind` names the type returned and takes no part in the test. -/
theorem cast_test_ignores_dev_kind (Dev : DevClass) (dev_kind dev_kind1 : Nat)
    (obj : KDeviceAbstract) :
    ((KDeviceAbstract.cast Dev dev_kind obj).1 = none ↔
      (KDeviceAbstract.cast Dev dev_kind1 obj).1 = none) := by
  unfold KDeviceAbstract.cast
  by_cases h : Dev.__kind = obj.kind
  · simp [h]
  · simp [h]

end KServer
